import Mathlib

/-!
# Game of Life simulator and password generator

A shallow embedding of `Game-life/main.go` (`NewGame`, `Game.Update`,
`Game.countNeighbors`) and of `Password-generator/main.go`
(`generatePassword`), followed by theorems about them.

Modelling conventions.

* A Go slice is a `List`; a Go `[][]bool` is a `List (List Bool)`.  Indexing is
  fallible: `none` stands for the run-time panic "index out of range".  The two
  grids of a `Game` never share storage in the Go program (`NewGame` allocates
  every row separately and `Update` only swaps the two outer slices), so value
  semantics is adequate.
* Go `int` values are `Int`.  No arithmetic in the embedded functions can leave
  the 64-bit range on the inputs considered (indices below 80, division by 10),
  so no wrap-around is modelled.  `/` and `%` are Go's truncating operators,
  `Int.tdiv` and `Int.tmod`.
* A `time.Time` is the number of nanoseconds since the zero `time.Time`; a
  `time.Duration` is a number of nanoseconds.  `Time.Sub` saturates at the
  64-bit range, as the Go library does.
* Every call of `Update` (one frame) observes the input devices and the clock
  once: `time.Since` and `time.Now` inside one frame read the same instant.
* The pseudo-random source is an explicit argument.
-/

namespace GameLife

/-! ## Constants -/

def screenWidth : Int := 800
def screenHeight : Int := 600
def cellSize : Int := 10
def cols : Int := screenWidth.tdiv cellSize
def rows : Int := screenHeight.tdiv cellSize

/-! ## Slices -/

/-- Go slice read `s[i]`; `none` is the out-of-range panic. -/
def index {α : Type} (s : List α) (i : Int) : Option α :=
  if i < 0 then none else s[i.toNat]?

/-- Go slice write `s[i] = v`; `none` is the out-of-range panic. -/
def assign {α : Type} (s : List α) (i : Int) (v : α) : Option (List α) :=
  if 0 ≤ i ∧ i.toNat < s.length then some (s.set i.toNat v) else none

abbrev Grid := List (List Bool)

/-- Go read `grid[r][c]`. -/
def index2 (grid : Grid) (r c : Int) : Option Bool :=
  (index grid r).bind fun row => index row c

/-- Go write `grid[r][c] = v`: the row slice `grid[r]` is updated in place. -/
def assign2 (grid : Grid) (r c : Int) (v : Bool) : Option Grid :=
  (index grid r).bind fun row => (assign row c v).bind fun row1 => assign grid r row1

/-- Go loop `for i := lo; ...; i++ { body }` run for `n` iterations from `lo`,
threading the mutated state; a panic in the body aborts the loop. -/
def forLoop {σ : Type} (body : Int → σ → Option σ) : Nat → Int → σ → Option σ
  | 0, _, s => some s
  | n + 1, i, s => (body i s).bind fun s1 => forLoop body n (i + 1) s1

/-- Go loop `for i := lo; i < hi; i++ { body }`. -/
def forRange {σ : Type} (lo hi : Int) (body : Int → σ → Option σ) (s : σ) : Option σ :=
  forLoop body (hi - lo).toNat lo s

/-! ## Time -/

def millisecond : Int := 1000000
def maxDuration : Int := 2 ^ 63 - 1
def minDuration : Int := -(2 ^ 63)

/-- Go `t.Sub(u)`: the duration `t - u`, saturated to the range of `Duration`. -/
def Sub (t u : Int) : Int :=
  if t - u > maxDuration then maxDuration
  else if t - u < minDuration then minDuration
  else t - u

/-! ## The simulator -/

structure Game where
  grid : Grid
  nextGrid : Grid
  lastUpdate : Int
  paused : Bool
deriving DecidableEq

/-- What one call of `Update` observes: the ebiten input state and the clock. -/
structure Frame where
  keySpace : Bool
  mouseLeft : Bool
  mouseRight : Bool
  cursorX : Int
  cursorY : Int
  now : Int
deriving DecidableEq

/-- Go `make([]bool, n)`. -/
def makeRow (n : Int) : List Bool := List.replicate n.toNat false

/-- Go `make([][]bool, n)`: `n` nil slices. -/
def makeGrid (n : Int) : Grid := List.replicate n.toNat []

/-- State of the loops of `NewGame`: both grids and the number of draws made
from the random source so far. -/
structure Alloc where
  grid : Grid
  nextGrid : Grid
  draws : Nat
deriving DecidableEq

/-- The constructor `NewGame`.  `intn k` is the value returned by the `k`-th call (counting from
zero) of `rand.Intn(10)`.  `lastUpdate` is not set by the composite literal, so
it is the zero `time.Time`. -/
def NewGame (intn : Nat → Int) : Option Game :=
  let g0 : Alloc := { grid := makeGrid rows, nextGrid := makeGrid rows, draws := 0 }
  (forRange 0 (g0.grid.length : Int)
    (fun i a =>
      (assign a.grid i (makeRow cols)).bind fun gr =>
      (assign a.nextGrid i (makeRow cols)).bind fun ng =>
      (index gr i).bind fun row =>
      forRange 0 (row.length : Int)
        (fun j a =>
          (assign2 a.grid i j (intn a.draws == 0)).bind fun gr1 =>
          some { a with grid := gr1, draws := a.draws + 1 })
        { a with grid := gr, nextGrid := ng })
    g0).bind fun a =>
  some { grid := a.grid, nextGrid := a.nextGrid, lastUpdate := 0, paused := false }

/-- The method `Game.countNeighbors`. -/
def countNeighbors (g : Game) (row col : Int) : Option Int :=
  forRange (-1) (1 + 1)
    (fun i count =>
      forRange (-1) (1 + 1)
        (fun j count =>
          if i == 0 && j == 0 then some count
          else
            let r := (row + i + rows).tmod rows
            let c := (col + j + cols).tmod cols
            (index2 g.grid r c).bind fun alive =>
            if alive then some (count + 1) else some count)
        count)
    0

/-- Lines 46-51 of `Update`: toggle pause with SPACE. -/
def togglePause (g : Game) (f : Frame) : Game :=
  if f.keySpace then
    if Sub f.now g.lastUpdate > 250 * millisecond then
      { g with paused := !g.paused, lastUpdate := f.now }
    else g
  else g

/-- One guarded mouse edit of lines 55-62 (`v = true`) or 64-71 (`v = false`). -/
def editCell (grid : Grid) (f : Frame) (v : Bool) : Option Grid :=
  let col := f.cursorX.tdiv cellSize
  let row := f.cursorY.tdiv cellSize
  if row ≥ 0 ∧ row < rows ∧ col ≥ 0 ∧ col < cols then assign2 grid row col v
  else some grid

/-- Lines 53-73 of `Update`: the body of `if g.paused`. -/
def applyEdits (g : Game) (f : Frame) : Option Game :=
  (if f.mouseLeft then editCell g.grid f true else some g.grid).bind fun gr1 =>
  (if f.mouseRight then editCell gr1 f false else some gr1).bind fun gr2 =>
  some { g with grid := gr2 }

/-- Lines 81-91 of `Update`: the two nested loops that fill `nextGrid`. -/
def calcNext (g : Game) : Option Grid :=
  forRange 0 rows
    (fun i next =>
      forRange 0 cols
        (fun j next =>
          (countNeighbors g i j).bind fun neighbors =>
          (index2 g.grid i j).bind fun alive =>
          if alive then assign2 next i j (neighbors == 2 || neighbors == 3)
          else assign2 next i j (neighbors == 3))
        next)
    g.nextGrid

/-- Lines 75-96 of `Update`: the part after the `if g.paused` block. -/
def advance (g : Game) (f : Frame) : Option Game :=
  if Sub f.now g.lastUpdate < 100 * millisecond then some g
  else
    let g1 := { g with lastUpdate := f.now }
    (calcNext g1).bind fun next =>
    some { g1 with grid := next, nextGrid := g1.grid }

/-- The method `Game.Update`, one frame. -/
def Update (g : Game) (f : Frame) : Option Game :=
  let g1 := togglePause g f
  if g1.paused then applyEdits g1 f else advance g1 f

/-! ## Specification-level notions -/

/-- The content of cell `(r, c)`, `false` outside the grid. -/
def cellAt (grid : Grid) (r c : Int) : Bool := (index2 grid r c).getD false

/-- A grid of the fixed dimensions: `rows` rows of `cols` cells each. -/
def WF (grid : Grid) : Prop :=
  grid.length = rows.toNat ∧ ∀ row ∈ grid, row.length = cols.toNat

/-- Both grids of the simulator have the fixed dimensions. -/
def WFGame (g : Game) : Prop := WF g.grid ∧ WF g.nextGrid

/-- The offsets `(di, dj)` in `{-1,0,1} x {-1,0,1}` other than `(0,0)`. -/
def offsets : List (Int × Int) :=
  ([-1, 0, 1].flatMap fun di => [-1, 0, 1].map fun dj => (di, dj)).filter fun p => p != (0, 0)

/-- The number of offsets whose cell, looked up modulo the grid dimensions
(mathematical, non-negative remainder), is alive. -/
def liveNeighborsOf (alive : Int → Int → Bool) (row col : Int) : Int :=
  (offsets.countP fun p => alive ((row + p.1) % rows) ((col + p.2) % cols) : Nat)

/-- The rule of the game: the next state of cell `(r, c)`. -/
def ruleOf (alive : Int → Int → Bool) (r c : Int) : Bool :=
  (alive r c && (liveNeighborsOf alive r c == 2 || liveNeighborsOf alive r c == 3)) ||
  (!alive r c && liveNeighborsOf alive r c == 3)

def liveNeighbors (grid : Grid) (row col : Int) : Int := liveNeighborsOf (cellAt grid) row col

def lifeRule (grid : Grid) (r c : Int) : Bool := ruleOf (cellAt grid) r c

/-- Rows `0..i-1` of `grid` are filled: each has `cols` cells, cell `(r, c)`
being alive exactly when draw number `r * cols + c` of `rand.Intn(10)` is 0. -/
def RowsFilled (intn : Nat → Int) (i : Int) (grid : Grid) : Prop :=
  ∀ r, 0 ≤ r → r < i → ∃ row, index grid r = some row ∧ row.length = cols.toNat ∧
    ∀ c, 0 ≤ c → c < cols → index row c = some (intn (r.toNat * cols.toNat + c.toNat) == 0)

/-- Rows `0..i-1` of the scratch grid are allocated and all dead. -/
def RowsMade (i : Int) (grid : Grid) : Prop :=
  ∀ r, 0 ≤ r → r < i → index grid r = some (makeRow cols)

/-- A frame whose clock reading, compared with the timestamp `last`, neither
toggles the pause flag nor is rate-gated: the frame reaches the loops that
compute a generation when the simulator is not paused. -/
def dueAfter (last : Int) (f : Frame) : Prop :=
  ¬(f.keySpace = true ∧ Sub f.now last > 250 * millisecond) ∧
  ¬(Sub f.now last < 100 * millisecond)

instance (last : Int) (f : Frame) : Decidable (dueAfter last f) := by
  unfold dueAfter; infer_instance

/-- An unpaused state in which a generation is due at frame `f`. -/
def generationDue (g : Game) (f : Frame) : Prop :=
  g.paused = false ∧ dueAfter g.lastUpdate f

instance (g : Game) (f : Frame) : Decidable (generationDue g f) := by
  unfold generationDue; infer_instance

/-- Membership of a cell in a pattern given by the list of its live cells. -/
def pattern (cells : List (Int × Int)) (r c : Int) : Bool := decide ((r, c) ∈ cells)

/-- The grid of the fixed dimensions whose live cells are exactly `cells`. -/
def patternGrid (cells : List (Int × Int)) : Grid :=
  (List.range rows.toNat).map fun (r : Nat) =>
    (List.range cols.toNat).map fun (c : Nat) => pattern cells (r : Int) (c : Int)

/-- The classic glider and its three successors. -/
def glider0 : List (Int × Int) := [(0, 1), (1, 2), (2, 0), (2, 1), (2, 2)]
def glider1 : List (Int × Int) := [(1, 0), (1, 2), (2, 1), (2, 2), (3, 1)]
def glider2 : List (Int × Int) := [(1, 2), (2, 0), (2, 2), (3, 1), (3, 2)]
def glider3 : List (Int × Int) := [(1, 1), (2, 2), (2, 3), (3, 1), (3, 2)]

/-- The glider shifted by `(1, 1)`. -/
def glider4 : List (Int × Int) := [(1, 2), (2, 3), (3, 1), (3, 2), (3, 3)]

/-- The cells that can have a live neighbour when every live cell lies in
rows and columns `0..3`: rows `0..4` and `59`, columns `0..4` and `79`. -/
def nearRows : List Int := [0, 1, 2, 3, 4, 59]
def nearCols : List Int := [0, 1, 2, 3, 4, 79]

/-- A frame with no key and no mouse button pressed. -/
def idleFrame (t : Int) : Frame :=
  { keySpace := false, mouseLeft := false, mouseRight := false, cursorX := 0, cursorY := 0,
    now := t }

/-- A frame with only the SPACE key pressed. -/
def spaceFrame (t : Int) : Frame :=
  { keySpace := true, mouseLeft := false, mouseRight := false, cursorX := 0, cursorY := 0,
    now := t }

/-- Two grids with no live cell, a given timestamp and pause flag. -/
def deadGame (last : Int) (paused : Bool) : Game :=
  { grid := patternGrid [], nextGrid := patternGrid [], lastUpdate := last, paused := paused }

/-- The effect of one frame on the pause flag and the timestamp, as a function
of their old values: lines 46-51, the return at line 72 and lines 76-79. -/
def control (paused : Bool) (last : Int) (f : Frame) : Bool × Int :=
  let toggled := f.keySpace && decide (Sub f.now last > 250 * millisecond)
  let paused1 := if toggled then !paused else paused
  let last1 := if toggled then f.now else last
  if paused1 then (paused1, last1)
  else if Sub f.now last1 < 100 * millisecond then (paused1, last1)
  else (paused1, f.now)

/-- A run annotated with the time of the last pause toggle. -/
structure Traced where
  game : Game
  lastToggle : Int

/-- One frame of an annotated run: the annotation becomes the frame's clock
reading exactly when `paused` changes. -/
def stepTraced (s : Traced) (f : Frame) : Option Traced :=
  (Update s.game f).bind fun g1 =>
    some { game := g1, lastToggle := if g1.paused = s.game.paused then s.lastToggle else f.now }

/-- What is required of one frame `f` taking `s` to `s1`: a flip needs the
signal and more than 250 ms since the last toggle and stamps the timestamp;
in a paused simulator the signal with more than 250 ms elapsed does flip. -/
def ToggleSpec (s : Traced) (f : Frame) (s1 : Traced) : Prop :=
  (s1.game.paused ≠ s.game.paused →
    f.keySpace = true ∧ 250 * millisecond < f.now - s.lastToggle ∧
      s1.game.lastUpdate = f.now) ∧
  (s.game.paused = true → f.keySpace = true → 250 * millisecond < f.now - s.lastToggle →
    s1.game.paused = false)

/-- Every frame of the run of `fs` from `s` completes and meets `ToggleSpec`. -/
def RunOK : Traced → List Frame → Prop
  | _, [] => True
  | s, f :: fs => ∃ s1, stepTraced s f = some s1 ∧ ToggleSpec s f s1 ∧ RunOK s1 fs

/-- The clock readings of the frames never decrease, starting from `t`. -/
def clockFrom : Int → List Frame → Prop
  | _, [] => True
  | t, f :: fs => t ≤ f.now ∧ clockFrom f.now fs

end GameLife

namespace PasswordGenerator

/-! ## The function `generatePassword`

Every character of the four constants is ASCII, so a byte of the Go string is
a character here and `len` is the number of characters. -/

def lowercaseChars : List Char := "abcdefghijklmnopqrstuvwxyz".toList
def uppercaseChars : List Char := "ABCDEFGHIJKLMNOPQRSTUVWXYZ".toList
def numberChars : List Char := "0123456789".toList
def symbolChars : List Char := "!@#$%^&*()-_=+[]\x7b\x7d|;:,.<>?".toList

/-- Lines 26-36: the available characters. -/
def availableChars (uppercase numbers symbols : Bool) : List Char :=
  let chars : List Char := []
  let chars := if uppercase then chars ++ uppercaseChars else chars
  let chars := if numbers then chars ++ numberChars else chars
  let chars := if symbols then chars ++ symbolChars else chars
  chars ++ lowercaseChars

/-- Go `rand.Intn(n)` at the `k`-th call: panics when `n <= 0`. -/
def randIntn (intn : Nat → Int → Int) (k : Nat) (n : Int) : Option Int :=
  if n ≤ 0 then none else some (intn k n)

/-- The function `generatePassword`.  `intn k n` is what the `k`-th call of `rand.Intn`
returns on argument `n`; `none` is a panic (negative length for `make`,
`rand.Intn` on a non-positive bound, index out of range). -/
def generatePassword (intn : Nat → Int → Int) (length : Int)
    (uppercase numbers symbols : Bool) : Option (List Char) :=
  let chars := availableChars uppercase numbers symbols
  if length < 0 then none
  else
    GameLife.forRange 0 length
      (fun i password =>
        (randIntn intn i.toNat (chars.length : Int)).bind fun k =>
        (GameLife.index chars k).bind fun ch =>
        GameLife.assign password i ch)
      (List.replicate length.toNat (Char.ofNat 0))

/-- The contract of `rand.Intn`: a result in `[0, n)` for positive `n`. -/
def IntnContract (intn : Nat → Int → Int) : Prop :=
  ∀ k n, 0 < n → 0 ≤ intn k n ∧ intn k n < n

end PasswordGenerator

namespace GameLife

/-! ## Slices and grids -/

theorem rows_eq : rows = 60 := by decide
theorem cols_eq : cols = 80 := by decide

theorem index_of_lt {α : Type} (s : List α) (i : Int) (h0 : 0 ≤ i) (h1 : i.toNat < s.length) :
    index s i = some (s.get ⟨i.toNat, h1⟩) := by
  unfold index
  rw [if_neg (by omega)]
  simp [List.getElem?_eq_getElem h1]

theorem index_set {α : Type} (s : List α) (k : Nat) (v : α) (i : Int) :
    index (s.set k v) i = if i = (k : Int) ∧ k < s.length then some v else index s i := by
  unfold index
  by_cases hi : i < 0
  · simp only [hi, if_true]
    rw [if_neg]; omega
  · simp only [hi, if_false, List.getElem?_set]
    by_cases hk : k = i.toNat
    · subst hk
      have hcast : i = ((i.toNat : Nat) : Int) := by omega
      by_cases hl : i.toNat < s.length
      · rw [if_pos rfl, if_pos hl, if_pos ⟨hcast, hl⟩]
      · rw [if_pos rfl, if_neg hl, if_neg (fun h => hl h.2)]
        exact (List.getElem?_eq_none (by omega)).symm
    · rw [if_neg hk, if_neg]
      omega

theorem assign_of_lt {α : Type} (s : List α) (i : Int) (v : α) (h0 : 0 ≤ i)
    (h1 : i.toNat < s.length) : assign s i v = some (s.set i.toNat v) := by
  unfold assign
  rw [if_pos ⟨h0, h1⟩]

theorem wf_row_lt {grid : Grid} (h : WF grid) {r : Int} (h0 : 0 ≤ r) (h1 : r < rows) :
    r.toNat < grid.length := by
  rw [h.1]; rw [rows_eq] at *; omega

theorem wf_col_lt {grid : Grid} (h : WF grid) {row : List Bool} (hm : row ∈ grid) {c : Int}
    (h0 : 0 ≤ c) (h1 : c < cols) : c.toNat < row.length := by
  rw [h.2 row hm]; rw [cols_eq] at *; omega

/-- In a grid of the fixed dimensions every in-bounds read succeeds. -/
theorem wf_index2 {grid : Grid} (h : WF grid) {r c : Int} (hr0 : 0 ≤ r) (hr1 : r < rows)
    (hc0 : 0 ≤ c) (hc1 : c < cols) : index2 grid r c = some (cellAt grid r c) := by
  have hr := wf_row_lt h hr0 hr1
  have hrow := index_of_lt grid r hr0 hr
  have hm : grid.get ⟨r.toNat, hr⟩ ∈ grid := List.get_mem _ _ _
  have hcell := index_of_lt (grid.get ⟨r.toNat, hr⟩) c hc0 (wf_col_lt h hm hc0 hc1)
  simp only [cellAt, index2, hrow, Option.some_bind, hcell, Option.getD_some]

/-- In a grid of the fixed dimensions every in-bounds write succeeds, keeps the
dimensions and changes exactly the addressed cell. -/
theorem wf_assign2 {grid : Grid} (h : WF grid) {r c : Int} (v : Bool) (hr0 : 0 ≤ r)
    (hr1 : r < rows) (hc0 : 0 ≤ c) (hc1 : c < cols) :
    ∃ grid1, assign2 grid r c v = some grid1 ∧ WF grid1 ∧
      ∀ r1 c1, index2 grid1 r1 c1 = if r1 = r ∧ c1 = c then some v else index2 grid r1 c1 := by
  have hr := wf_row_lt h hr0 hr1
  have hrow := index_of_lt grid r hr0 hr
  have hm : grid.get ⟨r.toNat, hr⟩ ∈ grid := List.get_mem _ _ _
  have hc := wf_col_lt h hm hc0 hc1
  refine ⟨grid.set r.toNat ((grid.get ⟨r.toNat, hr⟩).set c.toNat v), ?_, ?_, ?_⟩
  · simp only [assign2, hrow, Option.some_bind, assign_of_lt _ c v hc0 hc,
      assign_of_lt grid r _ hr0 hr]
  · refine ⟨by rw [List.length_set]; exact h.1, ?_⟩
    intro row hrow1
    rcases List.mem_or_eq_of_mem_set hrow1 with h1 | h1
    · exact h.2 row h1
    · rw [h1, List.length_set]; exact h.2 _ hm
  · intro r1 c1
    have hcr : r = ((r.toNat : Nat) : Int) := by omega
    have hcc : c = ((c.toNat : Nat) : Int) := by omega
    simp only [index2, index_set]
    by_cases e1 : r1 = r
    · subst e1
      rw [if_pos ⟨hcr, hr⟩, Option.some_bind, index_set]
      by_cases e2 : c1 = c
      · subst e2
        rw [if_pos ⟨hcc, hc⟩, if_pos ⟨rfl, rfl⟩]
      · rw [if_neg (fun hh => e2 (by omega)), if_neg (fun hh => e2 hh.2), hrow, Option.some_bind]
    · rw [if_neg (fun hh => e1 (by omega)), if_neg (fun hh => e1 hh.1)]

theorem cellAt_of_index2 {grid grid1 : Grid} {r c : Int} {v : Bool}
    (h : ∀ r1 c1, index2 grid1 r1 c1 = if r1 = r ∧ c1 = c then some v else index2 grid r1 c1)
    (r1 c1 : Int) : cellAt grid1 r1 c1 = if r1 = r ∧ c1 = c then v else cellAt grid r1 c1 := by
  unfold cellAt
  rw [h]
  split <;> rfl

/-! ## Loops -/

/-- Invariant rule for `forLoop`: an invariant that holds initially and is
re-established by every iteration (which must not panic) holds at the end, and
the loop does not panic. -/
theorem forLoop_inv {σ : Type} (body : Int → σ → Option σ) (P : Int → σ → Prop) :
    ∀ (n : Nat) (lo : Int) (s : σ), P lo s →
      (∀ i s, lo ≤ i → i < lo + n → P i s → ∃ s1, body i s = some s1 ∧ P (i + 1) s1) →
      ∃ s1, forLoop body n lo s = some s1 ∧ P (lo + n) s1 := by
  intro n
  induction n with
  | zero =>
    intro lo s h0 _
    exact ⟨s, rfl, by simpa using h0⟩
  | succ n ih =>
    intro lo s h0 hstep
    obtain ⟨s1, hb, hP⟩ := hstep lo s (le_refl _) (by push_cast; omega) h0
    obtain ⟨s2, hl, hP2⟩ := ih (lo + 1) s1 hP (fun i s hi1 hi2 hPi =>
      hstep i s (by omega) (by push_cast; omega) hPi)
    refine ⟨s2, ?_, ?_⟩
    · simp only [forLoop, hb, Option.some_bind, hl]
    · have e : lo + ((n + 1 : Nat) : Int) = lo + 1 + (n : Int) := by push_cast; omega
      rw [e]; exact hP2

/-- Invariant rule for `forRange`. -/
theorem forRange_inv {σ : Type} (body : Int → σ → Option σ) (P : Int → σ → Prop)
    (lo hi : Int) (hle : lo ≤ hi) (s : σ) (h0 : P lo s)
    (hstep : ∀ i s, lo ≤ i → i < hi → P i s → ∃ s1, body i s = some s1 ∧ P (i + 1) s1) :
    ∃ s1, forRange lo hi body s = some s1 ∧ P hi s1 := by
  have e : lo + (((hi - lo).toNat : Nat) : Int) = hi := by omega
  obtain ⟨s1, h1, h2⟩ := forLoop_inv body P (hi - lo).toNat lo s h0
    (fun i s hi1 hi2 hP => hstep i s hi1 (by omega) hP)
  exact ⟨s1, h1, by rw [e] at h2; exact h2⟩


/-! ## Neighbour counting -/

theorem offsets_eq :
    offsets = [(-1, -1), (-1, 0), (-1, 1), (0, -1), (0, 1), (1, -1), (1, 0), (1, 1)] := by
  decide

/-- One read of `countNeighbors`: Go's truncating `%` on the shifted index
agrees with the non-negative remainder, and the read is in bounds. -/
theorem neighbor_read {grid : Grid} (h : WF grid) {row col : Int} (hr0 : 0 ≤ row)
    (hr1 : row < rows) (hc0 : 0 ≤ col) (hc1 : col < cols) (i j : Int) (hi0 : -1 ≤ i)
    (hj0 : -1 ≤ j) :
    index2 grid ((row + i + rows).tmod rows) ((col + j + cols).tmod cols) =
      some (cellAt grid ((row + i) % rows) ((col + j) % cols)) := by
  have e1 : (row + i + rows).tmod rows = (row + i) % rows := by
    rw [Int.tmod_eq_emod (by rw [rows_eq] at *; omega) (by rw [rows_eq]; omega),
      Int.add_emod_self]
  have e2 : (col + j + cols).tmod cols = (col + j) % cols := by
    rw [Int.tmod_eq_emod (by rw [cols_eq] at *; omega) (by rw [cols_eq]; omega),
      Int.add_emod_self]
  rw [e1, e2]
  exact wf_index2 h (Int.emod_nonneg _ (by rw [rows_eq]; omega))
    (Int.emod_lt_of_pos _ (by rw [rows_eq]; omega))
    (Int.emod_nonneg _ (by rw [cols_eq]; omega))
    (Int.emod_lt_of_pos _ (by rw [cols_eq]; omega))

/-- On a grid of the fixed dimensions and an in-bounds cell, `countNeighbors`
does not panic and returns the number of live cells among the eight
neighbours on the torus. -/
theorem countNeighbors_eq (g : Game) (h : WF g.grid) {row col : Int} (hr0 : 0 ≤ row)
    (hr1 : row < rows) (hc0 : 0 ≤ col) (hc1 : col < cols) :
    countNeighbors g row col = some (liveNeighbors g.grid row col) := by
  have key := neighbor_read h hr0 hr1 hc0 hc1
  unfold countNeighbors forRange
  rw [show (1 + 1 - (-1) : Int).toNat = 3 from rfl]
  simp only [forLoop]
  rw [key (-1) (-1) (by decide) (by decide), key (-1) (-1 + 1) (by decide) (by decide),
    key (-1) (-1 + 1 + 1) (by decide) (by decide),
    key (-1 + 1) (-1) (by decide) (by decide),
    key (-1 + 1) (-1 + 1 + 1) (by decide) (by decide),
    key (-1 + 1 + 1) (-1) (by decide) (by decide),
    key (-1 + 1 + 1) (-1 + 1) (by decide) (by decide),
    key (-1 + 1 + 1) (-1 + 1 + 1) (by decide) (by decide)]
  simp only [liveNeighbors, liveNeighborsOf, offsets_eq, List.countP_cons, List.countP_nil]
  norm_num
  generalize cellAt g.grid ((row + -1) % rows) ((col + -1) % cols) = b1
  generalize cellAt g.grid ((row + -1) % rows) (col % cols) = b2
  generalize cellAt g.grid ((row + -1) % rows) ((col + 1) % cols) = b3
  generalize cellAt g.grid (row % rows) ((col + -1) % cols) = b4
  generalize cellAt g.grid (row % rows) ((col + 1) % cols) = b5
  generalize cellAt g.grid ((row + 1) % rows) ((col + -1) % cols) = b6
  generalize cellAt g.grid ((row + 1) % rows) (col % cols) = b7
  generalize cellAt g.grid ((row + 1) % rows) ((col + 1) % cols) = b8
  cases b1 <;> cases b2 <;> cases b3 <;> cases b4 <;> cases b5 <;> cases b6 <;> cases b7 <;>
    cases b8 <;> rfl


/-! ## One generation -/

/-- The body of the inner loop of `Update` writes the rule's value into the
addressed cell of the scratch grid. -/
theorem calcCell_spec (g : Game) (h : WF g.grid) {next : Grid} (hn : WF next) {i j : Int}
    (hi0 : 0 ≤ i) (hi1 : i < rows) (hj0 : 0 ≤ j) (hj1 : j < cols) :
    ∃ next1,
      ((countNeighbors g i j).bind fun neighbors =>
        (index2 g.grid i j).bind fun alive =>
          if alive then assign2 next i j (neighbors == 2 || neighbors == 3)
          else assign2 next i j (neighbors == 3)) = some next1 ∧
      WF next1 ∧
      ∀ r c, cellAt next1 r c = if r = i ∧ c = j then lifeRule g.grid i j else cellAt next r c := by
  obtain ⟨next1, h1, h2, h3⟩ := wf_assign2 hn (lifeRule g.grid i j) hi0 hi1 hj0 hj1
  refine ⟨next1, ?_, h2, cellAt_of_index2 h3⟩
  rw [countNeighbors_eq g h hi0 hi1 hj0 hj1, wf_index2 h hi0 hi1 hj0 hj1]
  simp only [Option.some_bind]
  rw [← h1]
  unfold lifeRule ruleOf
  rw [show liveNeighborsOf (cellAt g.grid) i j = liveNeighbors g.grid i j from rfl]
  cases cellAt g.grid i j <;> simp

/-- The nested loops of `Update` do not panic and fill the scratch grid with the
rule's value for every cell. -/
theorem calcNext_spec (g : Game) (h : WFGame g) :
    ∃ next, calcNext g = some next ∧ WF next ∧
      ∀ r c, 0 ≤ r → r < rows → 0 ≤ c → c < cols → cellAt next r c = lifeRule g.grid r c := by
  have hrows : (0 : Int) ≤ rows := by rw [rows_eq]; omega
  have hcols : (0 : Int) ≤ cols := by rw [cols_eq]; omega
  obtain ⟨next, h1, h2, h3⟩ := forRange_inv
    (fun i next =>
      forRange 0 cols
        (fun j next =>
          (countNeighbors g i j).bind fun neighbors =>
          (index2 g.grid i j).bind fun alive =>
          if alive then assign2 next i j (neighbors == 2 || neighbors == 3)
          else assign2 next i j (neighbors == 3))
        next)
    (fun i next => WF next ∧
      ∀ r c, 0 ≤ r → r < i → 0 ≤ c → c < cols → cellAt next r c = lifeRule g.grid r c)
    0 rows hrows g.nextGrid ⟨h.2, fun r c hr0 hr1 => by omega⟩
    (by
      intro i next hi0 hi1 hP
      obtain ⟨nx, k1, k2, k3, k4⟩ := forRange_inv
        (fun j next =>
          (countNeighbors g i j).bind fun neighbors =>
          (index2 g.grid i j).bind fun alive =>
          if alive then assign2 next i j (neighbors == 2 || neighbors == 3)
          else assign2 next i j (neighbors == 3))
        (fun j next => WF next ∧
          (∀ r c, 0 ≤ r → r < i → 0 ≤ c → c < cols → cellAt next r c = lifeRule g.grid r c) ∧
          (∀ c, 0 ≤ c → c < j → cellAt next i c = lifeRule g.grid i c))
        0 cols hcols next ⟨hP.1, hP.2, fun c hc0 hc1 => by omega⟩
        (by
          intro j nx hj0 hj1 hQ
          obtain ⟨n1, m1, m2, m3⟩ := calcCell_spec g h.1 hQ.1 hi0 hi1 hj0 hj1
          refine ⟨n1, m1, m2, ?_, ?_⟩
          · intro r c hr0 hr1 hc0 hc1
            rw [m3, if_neg (by omega)]
            exact hQ.2.1 r c hr0 hr1 hc0 hc1
          · intro c hc0 hc1
            rw [m3]
            by_cases e : c = j
            · rw [if_pos ⟨rfl, e⟩, e]
            · rw [if_neg (fun hh => e hh.2)]
              exact hQ.2.2 c hc0 (by omega))
      refine ⟨nx, k1, k2, ?_⟩
      intro r c hr0 hr1 hc0 hc1
      by_cases e : r = i
      · rw [e]; exact k4 c hc0 hc1
      · exact k3 r c hr0 (by omega) hc0 hc1)
  exact ⟨next, h1, h2, h3⟩


/-! ## Time -/

theorem Sub_gt_250 (t u : Int) : Sub t u > 250 * millisecond ↔ t - u > 250 * millisecond := by
  unfold Sub maxDuration minDuration millisecond
  norm_num
  split_ifs <;> omega

theorem Sub_lt_100 (t u : Int) : Sub t u < 100 * millisecond ↔ t - u < 100 * millisecond := by
  unfold Sub maxDuration minDuration millisecond
  norm_num
  split_ifs <;> omega

/-! ## The frame -/

theorem togglePause_grid (g : Game) (f : Frame) : (togglePause g f).grid = g.grid := by
  unfold togglePause; split_ifs <;> rfl

theorem togglePause_nextGrid (g : Game) (f : Frame) :
    (togglePause g f).nextGrid = g.nextGrid := by
  unfold togglePause; split_ifs <;> rfl

theorem togglePause_wf {g : Game} (h : WFGame g) (f : Frame) : WFGame (togglePause g f) := by
  unfold WFGame; rw [togglePause_grid, togglePause_nextGrid]; exact h

theorem togglePause_of_not {g : Game} {f : Frame}
    (h : ¬(f.keySpace = true ∧ Sub f.now g.lastUpdate > 250 * millisecond)) :
    togglePause g f = g := by
  unfold togglePause
  split_ifs with h1 h2
  · exact absurd ⟨h1, h2⟩ h
  · rfl
  · rfl

/-- The rate gate: less than 100 ms after `lastUpdate` nothing happens. -/
theorem advance_gated (g : Game) (f : Frame) (h : Sub f.now g.lastUpdate < 100 * millisecond) :
    advance g f = some g := by
  unfold advance; rw [if_pos h]

/-- A due generation: the loops complete, the scratch grid receives the rule's
value in every cell, the grids are swapped and the timestamp is set. -/
theorem advance_due (g : Game) (f : Frame) (h : WFGame g)
    (hd : ¬ Sub f.now g.lastUpdate < 100 * millisecond) :
    ∃ next, advance g f =
        some { grid := next, nextGrid := g.grid, lastUpdate := f.now, paused := g.paused } ∧
      WF next ∧
      ∀ r c, 0 ≤ r → r < rows → 0 ≤ c → c < cols → cellAt next r c = lifeRule g.grid r c := by
  obtain ⟨next, h1, h2, h3⟩ := calcNext_spec { g with lastUpdate := f.now } h
  refine ⟨next, ?_, h2, h3⟩
  unfold advance
  rw [if_neg hd]
  simp only [h1, Option.some_bind]

theorem Update_due (g : Game) (f : Frame) (h : WFGame g) (hd : generationDue g f) :
    ∃ next, Update g f =
        some { grid := next, nextGrid := g.grid, lastUpdate := f.now, paused := false } ∧
      WF next ∧
      ∀ r c, 0 ≤ r → r < rows → 0 ≤ c → c < cols → cellAt next r c = lifeRule g.grid r c := by
  obtain ⟨hp, hk, hd1⟩ := hd
  obtain ⟨next, h1, h2, h3⟩ := advance_due g f h hd1
  refine ⟨next, ?_, h2, h3⟩
  unfold Update
  simp only [togglePause_of_not hk, hp, Bool.false_eq_true, if_false, h1]

/-- One guarded mouse edit on a grid of the fixed dimensions. -/
theorem editCell_spec {grid : Grid} (h : WF grid) (f : Frame) (v : Bool) :
    ∃ grid1, editCell grid f v = some grid1 ∧ WF grid1 ∧
      ((0 ≤ f.cursorY.tdiv cellSize ∧ f.cursorY.tdiv cellSize < rows ∧
          0 ≤ f.cursorX.tdiv cellSize ∧ f.cursorX.tdiv cellSize < cols) →
        ∀ r c, index2 grid1 r c =
          if r = f.cursorY.tdiv cellSize ∧ c = f.cursorX.tdiv cellSize then some v
          else index2 grid r c) ∧
      (¬(0 ≤ f.cursorY.tdiv cellSize ∧ f.cursorY.tdiv cellSize < rows ∧
          0 ≤ f.cursorX.tdiv cellSize ∧ f.cursorX.tdiv cellSize < cols) → grid1 = grid) := by
  by_cases hb : 0 ≤ f.cursorY.tdiv cellSize ∧ f.cursorY.tdiv cellSize < rows ∧
      0 ≤ f.cursorX.tdiv cellSize ∧ f.cursorX.tdiv cellSize < cols
  · obtain ⟨grid1, h1, h2, h3⟩ := wf_assign2 h v hb.1 hb.2.1 hb.2.2.1 hb.2.2.2
    refine ⟨grid1, ?_, h2, fun _ => h3, fun hn => absurd hb hn⟩
    unfold editCell
    simp only [ge_iff_le]
    rw [if_pos hb, h1]
  · refine ⟨grid, ?_, h, fun hn => absurd hn hb, fun _ => rfl⟩
    unfold editCell
    simp only [ge_iff_le]
    rw [if_neg hb]

theorem Update_eq (g : Game) (f : Frame) :
    Update g f = if (togglePause g f).paused = true then applyEdits (togglePause g f) f
      else advance (togglePause g f) f := rfl

/-- A frame never panics on grids of the fixed dimensions, keeps the
dimensions, and its effect on the pause flag and the timestamp is the one
computed by `togglePause` and the rate gate. -/
theorem Update_total (g : Game) (f : Frame) (h : WFGame g) :
    ∃ g1, Update g f = some g1 ∧ WFGame g1 ∧ g1.paused = (togglePause g f).paused ∧
      g1.lastUpdate =
        (if (togglePause g f).paused = true then (togglePause g f).lastUpdate
         else if Sub f.now (togglePause g f).lastUpdate < 100 * millisecond then
           (togglePause g f).lastUpdate
         else f.now) := by
  have hw := togglePause_wf h f
  by_cases hp : (togglePause g f).paused = true
  · have e1 : ∃ gr1, (if f.mouseLeft = true then editCell (togglePause g f).grid f true
        else some (togglePause g f).grid) = some gr1 ∧ WF gr1 := by
      split_ifs
      · obtain ⟨gr1, k1, k2, _⟩ := editCell_spec hw.1 f true
        exact ⟨gr1, k1, k2⟩
      · exact ⟨_, rfl, hw.1⟩
    obtain ⟨gr1, k1, k2⟩ := e1
    have e2 : ∃ gr2, (if f.mouseRight = true then editCell gr1 f false else some gr1) =
        some gr2 ∧ WF gr2 := by
      split_ifs
      · obtain ⟨gr2, m1, m2, _⟩ := editCell_spec k2 f false
        exact ⟨gr2, m1, m2⟩
      · exact ⟨_, rfl, k2⟩
    obtain ⟨gr2, m1, m2⟩ := e2
    refine ⟨{ togglePause g f with grid := gr2 }, ?_, ⟨m2, hw.2⟩, rfl, ?_⟩
    · rw [Update_eq, if_pos hp]
      unfold applyEdits
      simp only [k1, Option.some_bind, m1]
    · rw [if_pos hp]
  · by_cases hd : Sub f.now (togglePause g f).lastUpdate < 100 * millisecond
    · refine ⟨togglePause g f, ?_, hw, rfl, ?_⟩
      · rw [Update_eq, if_neg hp]; exact advance_gated _ f hd
      · rw [if_neg hp, if_pos hd]
    · obtain ⟨next, h1, h2, _⟩ := advance_due (togglePause g f) f hw hd
      refine ⟨⟨next, (togglePause g f).grid, f.now, (togglePause g f).paused⟩, ?_,
        ⟨h2, hw.1⟩, rfl, ?_⟩
      · rw [Update_eq, if_neg hp]; exact h1
      · rw [if_neg hp, if_neg hd]


/-! ## Patterns -/

theorem wf_patternGrid (cells : List (Int × Int)) : WF (patternGrid cells) := by
  constructor
  · simp [patternGrid]
  · intro row hrow
    simp only [patternGrid, List.mem_map] at hrow
    obtain ⟨r, _, rfl⟩ := hrow
    simp

theorem index2_patternGrid (cells : List (Int × Int)) {r c : Int} (hr0 : 0 ≤ r) (hr1 : r < rows)
    (hc0 : 0 ≤ c) (hc1 : c < cols) : index2 (patternGrid cells) r c = some (pattern cells r c) := by
  have hr : r.toNat < rows.toNat := by rw [rows_eq] at *; omega
  have hc : c.toNat < cols.toNat := by rw [cols_eq] at *; omega
  have er : ((r.toNat : Nat) : Int) = r := by omega
  have ec : ((c.toNat : Nat) : Int) = c := by omega
  unfold index2 index patternGrid
  rw [if_neg (by omega)]
  simp only [List.getElem?_map, List.getElem?_range hr, Option.map_some', Option.some_bind]
  rw [if_neg (by omega)]
  simp only [List.getElem?_map, List.getElem?_range hc, Option.map_some', er, ec]

theorem wf_deadGame (last : Int) (paused : Bool) : WFGame (deadGame last paused) :=
  ⟨wf_patternGrid [], wf_patternGrid []⟩

theorem offsets_bound : ∀ p ∈ offsets, -1 ≤ p.1 ∧ p.1 ≤ 1 ∧ -1 ≤ p.2 ∧ p.2 ≤ 1 := by
  decide

theorem offsets_nonzero : ∀ p ∈ offsets, p.1 ≠ 0 ∨ p.2 ≠ 0 := by
  decide

theorem liveNeighborsOf_congr {a b : Int → Int → Bool}
    (h : ∀ r c, 0 ≤ r → r < rows → 0 ≤ c → c < cols → a r c = b r c) (row col : Int) :
    liveNeighborsOf a row col = liveNeighborsOf b row col := by
  unfold liveNeighborsOf
  congr 1
  apply List.countP_congr
  intro p _
  rw [h _ _ (Int.emod_nonneg _ (by rw [rows_eq]; omega))
    (Int.emod_lt_of_pos _ (by rw [rows_eq]; omega))
    (Int.emod_nonneg _ (by rw [cols_eq]; omega))
    (Int.emod_lt_of_pos _ (by rw [cols_eq]; omega))]

/-- The rule reads only cells of the grid. -/
theorem ruleOf_congr {a b : Int → Int → Bool}
    (h : ∀ r c, 0 ≤ r → r < rows → 0 ≤ c → c < cols → a r c = b r c) {r c : Int}
    (hr0 : 0 ≤ r) (hr1 : r < rows) (hc0 : 0 ≤ c) (hc1 : c < cols) :
    ruleOf a r c = ruleOf b r c := by
  unfold ruleOf
  rw [liveNeighborsOf_congr h, h r c hr0 hr1 hc0 hc1]

/-- With no live cell in the grid no cell has a live neighbour. -/
theorem liveNeighborsOf_dead {a : Int → Int → Bool}
    (h : ∀ r c, 0 ≤ r → r < rows → 0 ≤ c → c < cols → a r c = false) (row col : Int) :
    liveNeighborsOf a row col = 0 := by
  unfold liveNeighborsOf
  have e : List.countP (fun p => a ((row + p.1) % rows) ((col + p.2) % cols)) offsets = 0 := by
    rw [List.countP_eq_zero]
    intro p _
    rw [h _ _ (Int.emod_nonneg _ (by rw [rows_eq]; omega))
      (Int.emod_lt_of_pos _ (by rw [rows_eq]; omega))
      (Int.emod_nonneg _ (by rw [cols_eq]; omega))
      (Int.emod_lt_of_pos _ (by rw [cols_eq]; omega))]
    simp
  rw [e]; rfl

theorem liveNeighborsOf_le (a : Int → Int → Bool) (row col : Int) :
    0 ≤ liveNeighborsOf a row col ∧ liveNeighborsOf a row col ≤ 8 := by
  unfold liveNeighborsOf
  have h := @List.countP_le_length _ (fun p => a ((row + p.1) % rows) ((col + p.2) % cols))
    offsets
  have hl : offsets.length = 8 := by decide
  omega

/-- A pattern confined to rows and columns `0..3` has no live cell elsewhere. -/
theorem pattern_far {cells : List (Int × Int)} (hb : ∀ p ∈ cells, p.1 < 4 ∧ p.2 < 4)
    {r c : Int} (h : 4 ≤ r ∨ 4 ≤ c) : pattern cells r c = false := by
  unfold pattern
  rw [decide_eq_false_iff_not]
  intro hm
  have := hb (r, c) hm
  simp only at this
  omega

/-- One generation of a pattern confined to rows and columns `0..3`: it is
enough to check the rule on the cells near the pattern. -/
theorem pattern_step {cells cells1 : List (Int × Int)}
    (hb : ∀ p ∈ cells, p.1 < 4 ∧ p.2 < 4) (hb1 : ∀ p ∈ cells1, p.1 < 4 ∧ p.2 < 4)
    (hnear : ∀ r ∈ nearRows, ∀ c ∈ nearCols, ruleOf (pattern cells) r c = pattern cells1 r c)
    {r c : Int} (hr0 : 0 ≤ r) (hr1 : r < rows) (hc0 : 0 ≤ c) (hc1 : c < cols) :
    ruleOf (pattern cells) r c = pattern cells1 r c := by
  rw [rows_eq] at hr1
  rw [cols_eq] at hc1
  by_cases hn : r ∈ nearRows ∧ c ∈ nearCols
  · exact hnear r hn.1 c hn.2
  · have hfar : (5 ≤ r ∧ r ≤ 58) ∨ (5 ≤ c ∧ c ≤ 78) := by
      simp only [nearRows, nearCols, List.mem_cons, List.mem_singleton, List.not_mem_nil,
        or_false] at hn
      omega
    have hz : liveNeighborsOf (pattern cells) r c = 0 := by
      unfold liveNeighborsOf
      have e : List.countP (fun p => pattern cells ((r + p.1) % rows) ((c + p.2) % cols))
          offsets = 0 := by
        rw [List.countP_eq_zero]
        intro p hp
        have ho := offsets_bound p hp
        rw [pattern_far hb (by rw [rows_eq, cols_eq]; omega)]
        simp
      rw [e]; rfl
    unfold ruleOf
    rw [hz, pattern_far hb (by omega), pattern_far hb1 (by omega)]
    rfl


/-- A due generation on a grid showing a pattern confined to rows and columns
`0..3` yields the grid showing the pattern's successor. -/
theorem Update_pattern {cells cells1 : List (Int × Int)}
    (hb : ∀ p ∈ cells, p.1 < 4 ∧ p.2 < 4) (hb1 : ∀ p ∈ cells1, p.1 < 4 ∧ p.2 < 4)
    (hnear : ∀ r ∈ nearRows, ∀ c ∈ nearCols, ruleOf (pattern cells) r c = pattern cells1 r c)
    (g : Game) (f : Frame) (hwf : WFGame g) (hp : g.paused = false)
    (hdue : dueAfter g.lastUpdate f)
    (hcells : ∀ r c, 0 ≤ r → r < rows → 0 ≤ c → c < cols → cellAt g.grid r c = pattern cells r c) :
    ∃ g1, Update g f = some g1 ∧ WFGame g1 ∧ g1.paused = false ∧ g1.lastUpdate = f.now ∧
      ∀ r c, 0 ≤ r → r < rows → 0 ≤ c → c < cols → cellAt g1.grid r c = pattern cells1 r c := by
  obtain ⟨next, h1, h2, h3⟩ := Update_due g f hwf ⟨hp, hdue⟩
  refine ⟨_, h1, ⟨h2, hwf.1⟩, rfl, rfl, ?_⟩
  intro r c hr0 hr1 hc0 hc1
  show cellAt next r c = pattern cells1 r c
  rw [h3 r c hr0 hr1 hc0 hc1]
  unfold lifeRule
  rw [ruleOf_congr hcells hr0 hr1 hc0 hc1]
  exact pattern_step hb hb1 hnear hr0 hr1 hc0 hc1


/-! ## Pause flag and timestamp -/

theorem togglePause_paused (g : Game) (f : Frame) :
    (togglePause g f).paused =
      if f.keySpace = true ∧ Sub f.now g.lastUpdate > 250 * millisecond then !g.paused
      else g.paused := by
  unfold togglePause
  split_ifs with h1 h2 h3 h4 h5 <;> first | rfl | (exfalso; tauto)

theorem togglePause_lastUpdate (g : Game) (f : Frame) :
    (togglePause g f).lastUpdate =
      if f.keySpace = true ∧ Sub f.now g.lastUpdate > 250 * millisecond then f.now
      else g.lastUpdate := by
  unfold togglePause
  split_ifs with h1 h2 h3 h4 h5 <;> first | rfl | (exfalso; tauto)

/-- The pause flag and timestamp after a frame are given by `control`. -/
theorem Update_control (g : Game) (f : Frame) (h : WFGame g) :
    ∃ g1, Update g f = some g1 ∧ WFGame g1 ∧
      (g1.paused, g1.lastUpdate) = control g.paused g.lastUpdate f := by
  obtain ⟨g1, h1, h2, h3, h4⟩ := Update_total g f h
  refine ⟨g1, h1, h2, ?_⟩
  rw [h3, h4, togglePause_paused, togglePause_lastUpdate]
  unfold control
  by_cases hk : f.keySpace = true <;> by_cases hs : Sub f.now g.lastUpdate > 250 * millisecond <;>
    cases hp : g.paused <;> simp [hk, hs] <;> split_ifs <;> rfl


/-! ## The constructor `NewGame` -/

theorem index_set_self {α : Type} (s : List α) (i : Int) (v : α) (h0 : 0 ≤ i)
    (h1 : i.toNat < s.length) : index (s.set i.toNat v) i = some v := by
  rw [index_set, if_pos ⟨by omega, h1⟩]

theorem index_set_ne {α : Type} (s : List α) (k : Int) (i : Int) (v : α) (h0 : 0 ≤ k)
    (hne : i ≠ k) : index (s.set k.toNat v) i = index s i := by
  rw [index_set, if_neg (fun h => hne (by omega))]

theorem index_some_bounds {α : Type} {s : List α} {i : Int} {x : α} (h : index s i = some x) :
    0 ≤ i ∧ i.toNat < s.length := by
  unfold index at h
  split_ifs at h with h1
  refine ⟨by omega, ?_⟩
  by_contra hlt
  rw [List.getElem?_eq_none (by omega)] at h
  cases h

theorem index_makeRow {c : Int} (hc0 : 0 ≤ c) (hc1 : c < cols) :
    index (makeRow cols) c = some false := by
  unfold index makeRow
  rw [if_neg (by omega)]
  rw [cols_eq] at *
  have h80 : (80 : Int).toNat = 80 := rfl
  rw [h80, List.getElem?_replicate, if_pos (by omega)]

theorem length_makeRow : (makeRow cols).length = cols.toNat := by
  simp [makeRow]

/-- One iteration of the inner loop of `NewGame`. -/
theorem NewGame_cell (intn : Nat → Int) {i j : Int} (hi0 : 0 ≤ i) (hi1 : i < rows)
    (hj0 : 0 ≤ j) (hj1 : j < cols) (a : Alloc)
    (hlen : a.grid.length = rows.toNat) (hdraws : a.draws = i.toNat * cols.toNat + j.toNat)
    (hdone : RowsFilled intn i a.grid)
    (hrow : ∃ row, index a.grid i = some row ∧ row.length = cols.toNat ∧
      ∀ c, 0 ≤ c → c < j → index row c = some (intn (i.toNat * cols.toNat + c.toNat) == 0)) :
    ∃ gr1, assign2 a.grid i j (intn a.draws == 0) = some gr1 ∧ gr1.length = rows.toNat ∧
      RowsFilled intn i gr1 ∧
      ∃ row, index gr1 i = some row ∧ row.length = cols.toNat ∧
        ∀ c, 0 ≤ c → c < j + 1 →
          index row c = some (intn (i.toNat * cols.toNat + c.toNat) == 0) := by
  obtain ⟨row, r1, r2, r3⟩ := hrow
  have hi : i.toNat < a.grid.length := by rw [hlen]; rw [rows_eq] at *; omega
  have hj : j.toNat < row.length := by rw [r2]; rw [cols_eq] at *; omega
  refine ⟨a.grid.set i.toNat (row.set j.toNat (intn a.draws == 0)), ?_, ?_, ?_, ?_⟩
  · unfold assign2
    rw [r1, Option.some_bind, assign_of_lt _ j _ hj0 hj, Option.some_bind,
      assign_of_lt _ i _ hi0 hi]
  · rw [List.length_set, hlen]
  · intro r hr0 hr1
    obtain ⟨rw1, k1, k2, k3⟩ := hdone r hr0 hr1
    exact ⟨rw1, by rw [index_set_ne _ i r _ hi0 (by omega)]; exact k1, k2, k3⟩
  · refine ⟨_, index_set_self _ i _ hi0 hi, by rw [List.length_set]; exact r2, ?_⟩
    intro c hc0 hc1
    by_cases e : c = j
    · rw [e, index_set_self _ j _ hj0 hj, hdraws]
    · rw [index_set_ne _ j c _ hj0 e]
      exact r3 c hc0 (by omega)

/-- One iteration of the outer loop of `NewGame`: a row of each grid is
allocated and the row of the current grid is filled from the random source. -/
theorem NewGame_row (intn : Nat → Int) {i : Int} (hi0 : 0 ≤ i) (hi1 : i < rows) (a : Alloc)
    (hlen : a.grid.length = rows.toNat) (hlen1 : a.nextGrid.length = rows.toNat)
    (hdraws : a.draws = i.toNat * cols.toNat) (hdone : RowsFilled intn i a.grid)
    (hmade : RowsMade i a.nextGrid) :
    ∃ a1,
      ((assign a.grid i (makeRow cols)).bind fun gr =>
        (assign a.nextGrid i (makeRow cols)).bind fun ng =>
        (index gr i).bind fun row =>
        forRange 0 (row.length : Int)
          (fun j a =>
            (assign2 a.grid i j (intn a.draws == 0)).bind fun gr1 =>
            some { a with grid := gr1, draws := a.draws + 1 })
          { a with grid := gr, nextGrid := ng }) = some a1 ∧
      a1.grid.length = rows.toNat ∧ a1.nextGrid.length = rows.toNat ∧
      a1.draws = (i + 1).toNat * cols.toNat ∧ RowsFilled intn (i + 1) a1.grid ∧
      RowsMade (i + 1) a1.nextGrid := by
  have hi : i.toNat < a.grid.length := by rw [hlen]; rw [rows_eq] at *; omega
  have hi2 : i.toNat < a.nextGrid.length := by rw [hlen1]; rw [rows_eq] at *; omega
  have hcols : (0 : Int) ≤ cols := by rw [cols_eq]; omega
  have hmade1 : RowsMade (i + 1) (a.nextGrid.set i.toNat (makeRow cols)) := by
    intro r hr0 hr1
    by_cases e : r = i
    · rw [e]; exact index_set_self _ i _ hi0 hi2
    · rw [index_set_ne _ i r _ hi0 e]; exact hmade r hr0 (by omega)
  obtain ⟨a1, k1, k2, k3, k4, k5, k6, k7⟩ := forRange_inv
    (fun j (a : Alloc) =>
      (assign2 a.grid i j (intn a.draws == 0)).bind fun gr1 =>
      some { a with grid := gr1, draws := a.draws + 1 })
    (fun j (b : Alloc) => b.grid.length = rows.toNat ∧ b.nextGrid.length = rows.toNat ∧
      b.draws = i.toNat * cols.toNat + j.toNat ∧ RowsFilled intn i b.grid ∧
      RowsMade (i + 1) b.nextGrid ∧
      ∃ row, index b.grid i = some row ∧ row.length = cols.toNat ∧
        ∀ c, 0 ≤ c → c < j → index row c = some (intn (i.toNat * cols.toNat + c.toNat) == 0))
    0 cols hcols
    { a with grid := a.grid.set i.toNat (makeRow cols),
             nextGrid := a.nextGrid.set i.toNat (makeRow cols) }
    ⟨by rw [List.length_set]; exact hlen, by rw [List.length_set]; exact hlen1,
      by simpa using hdraws,
      fun r hr0 hr1 => by
        obtain ⟨rw1, m1, m2, m3⟩ := hdone r hr0 hr1
        exact ⟨rw1, by rw [index_set_ne _ i r _ hi0 (by omega)]; exact m1, m2, m3⟩,
      hmade1,
      ⟨makeRow cols, index_set_self _ i _ hi0 hi, length_makeRow, fun c hc0 hc1 => by omega⟩⟩
    (by
      intro j b hj0 hj1 hJ
      obtain ⟨b1, b2, b3, b4, b5, b6⟩ := hJ
      obtain ⟨gr1, n1, n2, n3, n4⟩ := NewGame_cell intn hi0 hi1 hj0 hj1 b b1 b3 b4 b6
      refine ⟨{ b with grid := gr1, draws := b.draws + 1 }, ?_, n2, b2, ?_, n3, b5, n4⟩
      · simp only [n1, Option.some_bind]
      · show b.draws + 1 = i.toNat * cols.toNat + (j + 1).toNat
        rw [b3]; omega)
  refine ⟨a1, ?_, k2, k3, ?_, ?_, k6⟩
  · rw [assign_of_lt _ i _ hi0 hi, Option.some_bind, assign_of_lt _ i _ hi0 hi2,
      Option.some_bind, index_set_self _ i _ hi0 hi, Option.some_bind, length_makeRow,
      show ((cols.toNat : Nat) : Int) = cols from by rw [cols_eq]; rfl]
    exact k1
  · rw [k4]; rw [cols_eq]
    have : (i + 1).toNat = i.toNat + 1 := by omega
    rw [this]
    have h80 : (80 : Int).toNat = 80 := rfl
    rw [h80]; omega
  · intro r hr0 hr1
    by_cases e : r = i
    · obtain ⟨row, m1, m2, m3⟩ := k7
      rw [e]
      exact ⟨row, m1, m2, m3⟩
    · exact k5 r hr0 (by omega)

/-- The constructor `NewGame` does not panic; the game it returns is not paused, has the zero
timestamp, two grids of the fixed dimensions, the current grid filled from the
random source and the scratch grid all dead. -/
theorem NewGame_spec (intn : Nat → Int) :
    ∃ g, NewGame intn = some g ∧ g.paused = false ∧ g.lastUpdate = 0 ∧ WFGame g ∧
      (∀ r c, 0 ≤ r → r < rows → 0 ≤ c → c < cols →
        index2 g.grid r c = some (intn (r.toNat * cols.toNat + c.toNat) == 0)) ∧
      (∀ r c, 0 ≤ r → r < rows → 0 ≤ c → c < cols → index2 g.nextGrid r c = some false) := by
  have hrows : (0 : Int) ≤ rows := by rw [rows_eq]; omega
  have hlen0 : (makeGrid rows).length = rows.toNat := by simp [makeGrid]
  obtain ⟨a, k1, k2, k3, _, k5, k6⟩ := forRange_inv
    (fun i (a : Alloc) =>
      (assign a.grid i (makeRow cols)).bind fun gr =>
      (assign a.nextGrid i (makeRow cols)).bind fun ng =>
      (index gr i).bind fun row =>
      forRange 0 (row.length : Int)
        (fun j a =>
          (assign2 a.grid i j (intn a.draws == 0)).bind fun gr1 =>
          some { a with grid := gr1, draws := a.draws + 1 })
        { a with grid := gr, nextGrid := ng })
    (fun i (a : Alloc) => a.grid.length = rows.toNat ∧ a.nextGrid.length = rows.toNat ∧
      a.draws = i.toNat * cols.toNat ∧ RowsFilled intn i a.grid ∧ RowsMade i a.nextGrid)
    0 rows hrows
    { grid := makeGrid rows, nextGrid := makeGrid rows, draws := 0 }
    ⟨hlen0, hlen0, by simp, fun r hr0 hr1 => by omega, fun r hr0 hr1 => by omega⟩
    (by
      intro i a hi0 hi1 hI
      obtain ⟨b1, b2, b3, b4, b5⟩ := hI
      exact NewGame_row intn hi0 hi1 a b1 b2 b3 b4 b5)
  have hwf1 : WF a.grid := by
    refine ⟨k2, ?_⟩
    intro row hrow
    obtain ⟨n, hn, hget⟩ := List.getElem_of_mem hrow
    have hn60 : (n : Int) < rows := by rw [k2] at hn; rw [rows_eq] at *; omega
    obtain ⟨row1, m1, m2, _⟩ := k5 (n : Int) (by omega) hn60
    have := index_of_lt a.grid (n : Int) (by omega) (by simpa using hn)
    rw [this] at m1
    simp only [Int.toNat_ofNat, List.get_eq_getElem, Option.some.injEq] at m1
    rw [← hget, m1]; exact m2
  have hwf2 : WF a.nextGrid := by
    refine ⟨k3, ?_⟩
    intro row hrow
    obtain ⟨n, hn, hget⟩ := List.getElem_of_mem hrow
    have hn60 : (n : Int) < rows := by rw [k3] at hn; rw [rows_eq] at *; omega
    have m1 := k6 (n : Int) (by omega) hn60
    have := index_of_lt a.nextGrid (n : Int) (by omega) (by simpa using hn)
    rw [this] at m1
    simp only [Int.toNat_ofNat, List.get_eq_getElem, Option.some.injEq] at m1
    rw [← hget, m1]; exact length_makeRow
  refine ⟨{ grid := a.grid, nextGrid := a.nextGrid, lastUpdate := 0, paused := false }, ?_, rfl,
    rfl, ⟨hwf1, hwf2⟩, ?_, ?_⟩
  · unfold NewGame
    simp only [hlen0]
    rw [show ((rows.toNat : Nat) : Int) = rows from by rw [rows_eq]; rfl]
    simp only [k1, Option.some_bind]
  · intro r c hr0 hr1 hc0 hc1
    obtain ⟨row, m1, _, m3⟩ := k5 r hr0 hr1
    show index2 a.grid r c = _
    unfold index2
    rw [m1, Option.some_bind]
    exact m3 c hc0 hc1
  · intro r c hr0 hr1 hc0 hc1
    show index2 a.nextGrid r c = _
    unfold index2
    rw [k6 r hr0 hr1, Option.some_bind]
    exact index_makeRow hc0 hc1


/-! ## The rule of one generation -/

/-- C1: on grids of the fixed dimensions (60 rows of 80 cells), in every
unpaused state in which a generation is due, `Update` returns a state whose
current grid has the fixed dimensions and in which, for every cell `(r, c)`,
the cell is alive if and only if it was alive in the old grid with
`countNeighbors(r, c)` on the old grid equal to 2 or 3, or dead in the old grid
with `countNeighbors(r, c)` equal to 3.  In particular a fully dead grid stays
fully dead. -/
theorem Update_computes_generation (g : Game) (f : Frame) (hwf : WFGame g)
    (hdue : generationDue g f) :
    ∃ g1, Update g f = some g1 ∧ WF g1.grid ∧
      (∀ r c, 0 ≤ r → r < rows → 0 ≤ c → c < cols →
        ∃ n old new, countNeighbors g r c = some n ∧ index2 g.grid r c = some old ∧
          index2 g1.grid r c = some new ∧
          (new = true ↔ (old = true ∧ (n = 2 ∨ n = 3)) ∨ (old = false ∧ n = 3))) ∧
      ((∀ r c, 0 ≤ r → r < rows → 0 ≤ c → c < cols → index2 g.grid r c = some false) →
        ∀ r c, 0 ≤ r → r < rows → 0 ≤ c → c < cols → index2 g1.grid r c = some false) := by
  obtain ⟨next, h1, h2, h3⟩ := Update_due g f hwf hdue
  refine ⟨_, h1, h2, ?_, ?_⟩
  · intro r c hr0 hr1 hc0 hc1
    refine ⟨liveNeighbors g.grid r c, cellAt g.grid r c, cellAt next r c,
      countNeighbors_eq g hwf.1 hr0 hr1 hc0 hc1, wf_index2 hwf.1 hr0 hr1 hc0 hc1,
      wf_index2 h2 hr0 hr1 hc0 hc1, ?_⟩
    rw [h3 r c hr0 hr1 hc0 hc1]
    unfold lifeRule ruleOf
    rw [show liveNeighborsOf (cellAt g.grid) r c = liveNeighbors g.grid r c from rfl]
    cases cellAt g.grid r c <;> simp
  · intro hdead r c hr0 hr1 hc0 hc1
    have hd : ∀ r c, 0 ≤ r → r < rows → 0 ≤ c → c < cols → cellAt g.grid r c = false := by
      intro r c hr0 hr1 hc0 hc1
      unfold cellAt
      rw [hdead r c hr0 hr1 hc0 hc1]; rfl
    show index2 next r c = some false
    rw [wf_index2 h2 hr0 hr1 hc0 hc1, h3 r c hr0 hr1 hc0 hc1]
    unfold lifeRule ruleOf
    rw [liveNeighborsOf_dead hd, hd r c hr0 hr1 hc0 hc1]
    rfl

/-- An instance of the rule of one generation: the dead grid, idle frame at 100 ms. -/
theorem Update_computes_generation_witness :
    WFGame (deadGame 0 false) ∧ generationDue (deadGame 0 false) (idleFrame 100000000) ∧
      ∃ g1, Update (deadGame 0 false) (idleFrame 100000000) = some g1 ∧ WF g1.grid := by
  obtain ⟨g1, h1, h2, _⟩ := Update_computes_generation (deadGame 0 false)
    (idleFrame 100000000) (wf_deadGame 0 false) (by decide)
  exact ⟨wf_deadGame 0 false, by decide, g1, h1, h2⟩


/-! ## Neighbour counting on the torus -/

/-- Writing one cell changes `liveNeighbors` at `(row, col)` by what the
written cell contributes: the count of the offsets that address it. -/
theorem liveNeighbors_write {grid grid1 : Grid} {r c : Int} {v : Bool}
    (h : ∀ r1 c1, index2 grid1 r1 c1 = if r1 = r ∧ c1 = c then some v else index2 grid r1 c1)
    (row col : Int) :
    liveNeighbors grid1 row col =
      liveNeighborsOf (fun r1 c1 => if r1 = r ∧ c1 = c then v else cellAt grid r1 c1) row col := by
  unfold liveNeighbors
  congr 1
  funext r1 c1
  exact cellAt_of_index2 h r1 c1

/-- C2: for every grid of the fixed dimensions and every in-bounds cell,
`countNeighbors(row, col)` returns the number of offsets `(di, dj)` in
`{-1,0,1} x {-1,0,1}` other than `(0,0)` whose cell
`((row+di) mod rows, (col+dj) mod cols)` is alive; the result lies in `[0, 8]`;
it does not depend on the cell `(row, col)` itself; and it wraps: the cell
`(rows-1, cols-1)` contributes one to the count of `(0, 0)` when alive, and
`(0, 0)` contributes one to the count of `(rows-1, cols-1)`. -/
theorem countNeighbors_torus (g : Game) (hwf : WF g.grid) (row col : Int) (hr0 : 0 ≤ row)
    (hr1 : row < rows) (hc0 : 0 ≤ col) (hc1 : col < cols) :
    countNeighbors g row col = some (liveNeighbors g.grid row col) ∧
    0 ≤ liveNeighbors g.grid row col ∧ liveNeighbors g.grid row col ≤ 8 ∧
    (∀ v grid1, assign2 g.grid row col v = some grid1 →
      countNeighbors { g with grid := grid1 } row col = countNeighbors g row col) ∧
    (∀ gridA gridD, assign2 g.grid (rows - 1) (cols - 1) true = some gridA →
      assign2 g.grid (rows - 1) (cols - 1) false = some gridD →
      ∃ n, countNeighbors { g with grid := gridD } 0 0 = some n ∧
        countNeighbors { g with grid := gridA } 0 0 = some (n + 1)) ∧
    (∀ gridA gridD, assign2 g.grid 0 0 true = some gridA →
      assign2 g.grid 0 0 false = some gridD →
      ∃ n, countNeighbors { g with grid := gridD } (rows - 1) (cols - 1) = some n ∧
        countNeighbors { g with grid := gridA } (rows - 1) (cols - 1) = some (n + 1)) := by
  refine ⟨countNeighbors_eq g hwf hr0 hr1 hc0 hc1, (liveNeighborsOf_le _ row col).1,
    (liveNeighborsOf_le _ row col).2, ?_, ?_, ?_⟩
  · intro v grid1 hw
    obtain ⟨grid2, k1, k2, k3⟩ := wf_assign2 hwf v hr0 hr1 hc0 hc1
    rw [hw] at k1
    cases k1
    rw [countNeighbors_eq _ k2 hr0 hr1 hc0 hc1, countNeighbors_eq g hwf hr0 hr1 hc0 hc1,
      liveNeighbors_write k3]
    unfold liveNeighbors liveNeighborsOf
    congr 2
    apply List.countP_congr
    intro p hp
    have ho := offsets_bound p hp
    have hz := offsets_nonzero p hp
    have hne : ¬((row + p.1) % rows = row ∧ (col + p.2) % cols = col) := by
      rw [rows_eq, cols_eq] at *
      omega
    beta_reduce
    rw [if_neg hne]
  · intro gridA gridD hA hD
    have b1 : (0 : Int) ≤ rows - 1 ∧ rows - 1 < rows := by rw [rows_eq]; omega
    have b2 : (0 : Int) ≤ cols - 1 ∧ cols - 1 < cols := by rw [cols_eq]; omega
    have z1 : (0 : Int) ≤ 0 ∧ (0 : Int) < rows := by rw [rows_eq]; omega
    have z2 : (0 : Int) ≤ 0 ∧ (0 : Int) < cols := by rw [cols_eq]; omega
    obtain ⟨gA, a1, a2, a3⟩ := wf_assign2 hwf true b1.1 b1.2 b2.1 b2.2
    obtain ⟨gD, d1, d2, d3⟩ := wf_assign2 hwf false b1.1 b1.2 b2.1 b2.2
    rw [hA] at a1; cases a1
    rw [hD] at d1; cases d1
    refine ⟨liveNeighbors gridD 0 0, countNeighbors_eq _ d2 z1.1 z1.2 z2.1 z2.2, ?_⟩
    rw [countNeighbors_eq _ a2 z1.1 z1.2 z2.1 z2.2, liveNeighbors_write a3,
      liveNeighbors_write d3]
    simp only [liveNeighborsOf, offsets_eq, List.countP_cons, List.countP_nil, rows_eq, cols_eq]
    norm_num
  · intro gridA gridD hA hD
    have b1 : (0 : Int) ≤ rows - 1 ∧ rows - 1 < rows := by rw [rows_eq]; omega
    have b2 : (0 : Int) ≤ cols - 1 ∧ cols - 1 < cols := by rw [cols_eq]; omega
    have z1 : (0 : Int) ≤ 0 ∧ (0 : Int) < rows := by rw [rows_eq]; omega
    have z2 : (0 : Int) ≤ 0 ∧ (0 : Int) < cols := by rw [cols_eq]; omega
    obtain ⟨gA, a1, a2, a3⟩ := wf_assign2 hwf true z1.1 z1.2 z2.1 z2.2
    obtain ⟨gD, d1, d2, d3⟩ := wf_assign2 hwf false z1.1 z1.2 z2.1 z2.2
    rw [hA] at a1; cases a1
    rw [hD] at d1; cases d1
    refine ⟨liveNeighbors gridD (rows - 1) (cols - 1),
      countNeighbors_eq _ d2 b1.1 b1.2 b2.1 b2.2, ?_⟩
    rw [countNeighbors_eq _ a2 b1.1 b1.2 b2.1 b2.2, liveNeighbors_write a3,
      liveNeighbors_write d3]
    simp only [liveNeighborsOf, offsets_eq, List.countP_cons, List.countP_nil, rows_eq, cols_eq]
    norm_num
    omega

/-- An instance of the neighbour count: cell `(0, 0)` of the dead grid. -/
theorem countNeighbors_torus_witness :
    WF (deadGame 0 false).grid ∧
      countNeighbors (deadGame 0 false) 0 0 = some (liveNeighbors (deadGame 0 false).grid 0 0) :=
  ⟨wf_patternGrid [],
    (countNeighbors_torus (deadGame 0 false) (wf_patternGrid []) 0 0 (by decide) (by decide)
      (by decide) (by decide)).1⟩


/-! ## The glider -/

theorem glider_step01 : ∀ r ∈ nearRows, ∀ c ∈ nearCols,
    ruleOf (pattern glider0) r c = pattern glider1 r c := by decide

theorem glider_step12 : ∀ r ∈ nearRows, ∀ c ∈ nearCols,
    ruleOf (pattern glider1) r c = pattern glider2 r c := by decide

theorem glider_step23 : ∀ r ∈ nearRows, ∀ c ∈ nearCols,
    ruleOf (pattern glider2) r c = pattern glider3 r c := by decide

theorem glider_step34 : ∀ r ∈ nearRows, ∀ c ∈ nearCols,
    ruleOf (pattern glider3) r c = pattern glider4 r c := by decide


/-- C3: starting from the 60x80 grid whose only live cells are the glider
`(0,1), (1,2), (2,0), (2,1), (2,2)`, four frames of `Update` that each compute
a generation leave a grid of the fixed dimensions whose live cells are exactly
`(1,2), (2,3), (3,1), (3,2), (3,3)`, the glider shifted by `(1,1)`; every other
cell is dead. -/
theorem glider_after_four_generations (g : Game) (f1 f2 f3 f4 : Frame)
    (hgrid : g.grid = patternGrid glider0) (hscratch : WF g.nextGrid) (hp : g.paused = false)
    (h1 : dueAfter g.lastUpdate f1) (h2 : dueAfter f1.now f2) (h3 : dueAfter f2.now f3)
    (h4 : dueAfter f3.now f4) :
    ∃ g1 g2 g3 g4, Update g f1 = some g1 ∧ Update g1 f2 = some g2 ∧ Update g2 f3 = some g3 ∧
      Update g3 f4 = some g4 ∧ WF g4.grid ∧
      ∀ r c, 0 ≤ r → r < rows → 0 ≤ c → c < cols →
        index2 g4.grid r c = some (decide ((r, c) ∈ [(1, 2), (2, 3), (3, 1), (3, 2), (3, 3)])) := by
  have hwf : WFGame g := ⟨by rw [hgrid]; exact wf_patternGrid _, hscratch⟩
  have hc0 : ∀ r c, 0 ≤ r → r < rows → 0 ≤ c → c < cols →
      cellAt g.grid r c = pattern glider0 r c := by
    intro r c hr0 hr1 hc0 hc1
    unfold cellAt
    rw [hgrid, index2_patternGrid _ hr0 hr1 hc0 hc1]; rfl
  obtain ⟨g1, e1, w1, p1, t1, c1⟩ := Update_pattern (by decide) (by decide) glider_step01
    g f1 hwf hp h1 hc0
  obtain ⟨g2, e2, w2, p2, t2, c2⟩ := Update_pattern (by decide) (by decide) glider_step12
    g1 f2 w1 p1 (by rw [t1]; exact h2) c1
  obtain ⟨g3, e3, w3, p3, t3, c3⟩ := Update_pattern (by decide) (by decide) glider_step23
    g2 f3 w2 p2 (by rw [t2]; exact h3) c2
  obtain ⟨g4, e4, w4, _, _, c4⟩ := Update_pattern (by decide) (by decide) glider_step34
    g3 f4 w3 p3 (by rw [t3]; exact h4) c3
  refine ⟨g1, g2, g3, g4, e1, e2, e3, e4, w4.1, ?_⟩
  intro r c hr0 hr1 hc0 hc1
  rw [wf_index2 w4.1 hr0 hr1 hc0 hc1, c4 r c hr0 hr1 hc0 hc1]
  rfl

/-- An instance of the glider run: frames at 100, 200, 300 and 400 ms. -/
theorem glider_after_four_generations_witness :
    ∃ g1 g2 g3 g4,
      Update ⟨patternGrid glider0, patternGrid [], 0, false⟩ (idleFrame 100000000) = some g1 ∧
      Update g1 (idleFrame 200000000) = some g2 ∧ Update g2 (idleFrame 300000000) = some g3 ∧
      Update g3 (idleFrame 400000000) = some g4 ∧ index2 g4.grid 3 3 = some true ∧
      index2 g4.grid 2 2 = some false := by
  obtain ⟨g1, g2, g3, g4, e1, e2, e3, e4, _, hc⟩ := glider_after_four_generations
    ⟨patternGrid glider0, patternGrid [], 0, false⟩ (idleFrame 100000000)
    (idleFrame 200000000) (idleFrame 300000000) (idleFrame 400000000) rfl (wf_patternGrid [])
    rfl (by decide) (by decide) (by decide) (by decide)
  exact ⟨g1, g2, g3, g4, e1, e2, e3, e4,
    hc 3 3 (by decide) (by decide) (by decide) (by decide),
    hc 2 2 (by decide) (by decide) (by decide) (by decide)⟩


/-! ## The pause toggle -/

/-- C4 (counterexample): a run from a paused simulator with timestamp 0.  SPACE
at 1000 ms flips `paused`; the idle frame at 1100 ms computes a generation and
moves the compared timestamp to 1100 ms although nothing was toggled; SPACE at
1300 ms, 300 ms after the flip, does not flip; SPACE at 1600 ms flips; SPACE
at 1850 ms, exactly 250 ms after that flip, does not flip. -/
theorem pause_toggle_counterexample :
    ∃ g1 g2 g3 g4 g5,
      Update (deadGame 0 true) (spaceFrame 1000000000) = some g1 ∧
      Update g1 (idleFrame 1100000000) = some g2 ∧
      Update g2 (spaceFrame 1300000000) = some g3 ∧
      Update g3 (spaceFrame 1600000000) = some g4 ∧
      Update g4 (spaceFrame 1850000000) = some g5 ∧
      (g1.paused, g1.lastUpdate) = (false, 1000000000) ∧
      (g2.paused, g2.lastUpdate) = (false, 1100000000) ∧
      (1300000000 : Int) - 1000000000 ≥ 250 * millisecond ∧ g3.paused = g2.paused ∧
      (g4.paused, g4.lastUpdate) = (true, 1600000000) ∧
      (1850000000 : Int) - 1600000000 ≥ 250 * millisecond ∧ g5.paused = g4.paused := by
  obtain ⟨g1, e1, w1, c1⟩ := Update_control (deadGame 0 true) (spaceFrame 1000000000)
    (wf_deadGame 0 true)
  have d1 : (g1.paused, g1.lastUpdate) = (false, 1000000000) := by rw [c1]; decide
  obtain ⟨g2, e2, w2, c2⟩ := Update_control g1 (idleFrame 1100000000) w1
  have d2 : (g2.paused, g2.lastUpdate) = (false, 1100000000) := by
    rw [c2, (Prod.mk.inj d1).1, (Prod.mk.inj d1).2]; decide
  obtain ⟨g3, e3, w3, c3⟩ := Update_control g2 (spaceFrame 1300000000) w2
  have d3 : (g3.paused, g3.lastUpdate) = (false, 1300000000) := by
    rw [c3, (Prod.mk.inj d2).1, (Prod.mk.inj d2).2]; decide
  obtain ⟨g4, e4, w4, c4⟩ := Update_control g3 (spaceFrame 1600000000) w3
  have d4 : (g4.paused, g4.lastUpdate) = (true, 1600000000) := by
    rw [c4, (Prod.mk.inj d3).1, (Prod.mk.inj d3).2]; decide
  obtain ⟨g5, e5, _, c5⟩ := Update_control g4 (spaceFrame 1850000000) w4
  have d5 : (g5.paused, g5.lastUpdate) = (true, 1600000000) := by
    rw [c5, (Prod.mk.inj d4).1, (Prod.mk.inj d4).2]; decide
  refine ⟨g1, g2, g3, g4, g5, e1, e2, e3, e4, e5, d1, d2, by decide, ?_, d4, by decide, ?_⟩
  · rw [(Prod.mk.inj d3).1, (Prod.mk.inj d2).1]
  · rw [(Prod.mk.inj d5).1, (Prod.mk.inj d4).1]

/-- C4 (amended): over every sequence of frames with non-decreasing clock
readings, no frame panics, `paused` is flipped only if the pause signal is
active and more than 250 ms have elapsed since the last toggle, a flip sets the
compared timestamp to the frame's clock reading, and while the simulator is
paused the signal with more than 250 ms elapsed since the last toggle does
flip `paused`. -/
theorem pause_toggle_run (fs : List Frame) :
    ∀ (s : Traced) (t : Int), WFGame s.game → s.lastToggle ≤ s.game.lastUpdate →
      (s.game.paused = true → s.game.lastUpdate = s.lastToggle) → s.game.lastUpdate ≤ t →
      clockFrom t fs → RunOK s fs := by
  induction fs with
  | nil => intro s t _ _ _ _ _; exact trivial
  | cons f fs ih =>
    intro s t hwf hle hpa hlt hclock
    obtain ⟨htf, hrest⟩ := hclock
    obtain ⟨g1, e1, w1, p1, l1⟩ := Update_total s.game f hwf
    rw [togglePause_paused] at p1
    rw [togglePause_paused, togglePause_lastUpdate] at l1
    have hsub := Sub_gt_250 f.now s.game.lastUpdate
    have hsub0 : ¬ Sub f.now f.now < 100 * millisecond → False := by
      intro h; apply h; rw [Sub_lt_100]; unfold millisecond; omega
    refine ⟨⟨g1, if g1.paused = s.game.paused then s.lastToggle else f.now⟩, ?_, ?_, ?_⟩
    · unfold stepTraced
      rw [e1]; rfl
    · by_cases hc : f.keySpace = true ∧ Sub f.now s.game.lastUpdate > 250 * millisecond
      · simp only [if_pos hc] at p1 l1
        have hl : g1.lastUpdate = f.now := by
          rw [l1]; split_ifs with h1 h2
          · rfl
          · rfl
          · rfl
        constructor
        · intro _
          refine ⟨hc.1, ?_, hl⟩
          have := hsub.1 hc.2
          omega
        · intro hp _ _
          show g1.paused = false
          rw [p1, hp]; rfl
      · rw [if_neg hc] at p1
        constructor
        · intro hne
          exact absurd p1 hne
        · intro hp hk hel
          exfalso
          apply hc
          refine ⟨hk, hsub.2 ?_⟩
          rw [hpa hp]; omega
    · by_cases hc : f.keySpace = true ∧ Sub f.now s.game.lastUpdate > 250 * millisecond
      · simp only [if_pos hc] at p1 l1
        have hl : g1.lastUpdate = f.now := by
          rw [l1]; split_ifs with h1 h2
          · rfl
          · rfl
          · rfl
        have hne : ¬ g1.paused = s.game.paused := by
          rw [p1]; cases s.game.paused <;> simp
        apply ih _ f.now w1
        · show (if g1.paused = s.game.paused then s.lastToggle else f.now) ≤ g1.lastUpdate
          rw [if_neg hne, hl]
        · intro _
          show g1.lastUpdate = if g1.paused = s.game.paused then s.lastToggle else f.now
          rw [if_neg hne, hl]
        · rw [hl]
        · exact hrest
      · simp only [if_neg hc] at p1 l1
        apply ih _ f.now w1
        · show (if g1.paused = s.game.paused then s.lastToggle else f.now) ≤ g1.lastUpdate
          rw [if_pos p1, l1]
          split_ifs <;> omega
        · intro hp
          show g1.lastUpdate = if g1.paused = s.game.paused then s.lastToggle else f.now
          rw [if_pos p1, l1, if_pos (by rw [← p1]; exact hp)]
          exact hpa (by rw [← p1]; exact hp)
        · rw [l1]; split_ifs <;> omega
        · exact hrest

/-- An instance of the toggle run: SPACE held at 300 ms and 400 ms while paused. -/
theorem pause_toggle_run_witness :
    RunOK ⟨deadGame 0 true, 0⟩ [spaceFrame 300000000, spaceFrame 400000000] :=
  pause_toggle_run [spaceFrame 300000000, spaceFrame 400000000] ⟨deadGame 0 true, 0⟩ 0
    (wf_deadGame 0 true) (by decide) (fun _ => rfl) (by decide)
    ⟨by decide, by decide, trivial⟩


/-! ## Debounce, pause gating, rate gating -/

/-- C5 (counterexample): a paused simulator whose timestamp is 0 (the pause was
toggled then), with SPACE still held at 16 ms and at 32 ms: the two frames are
less than 250 ms apart and `paused` is not toggled at all. -/
theorem debounce_counterexample :
    Update (deadGame 0 true) (spaceFrame 16000000) = some (deadGame 0 true) ∧
    Update (deadGame 0 true) (spaceFrame 32000000) = some (deadGame 0 true) ∧
    (16000000 : Int) ≤ 32000000 ∧ (32000000 : Int) - 16000000 < 250 * millisecond ∧
    (deadGame 0 true).paused ≠ !(deadGame 0 true).paused := by
  refine ⟨rfl, rfl, by decide, by decide, by decide⟩

/-- C5 (amended): on grids of the fixed dimensions, two frames at clock readings
`t1` and `t2` with `t2 - t1 < 250 ms`, the first with the pause signal active
(the second with or without it, so in particular with it, and whether or not
`t1 <= t2`), do not panic and toggle `paused` at most once; when more than
250 ms have elapsed since `lastUpdate` at `t1`, the first frame toggles and the
second does not, so `paused` after the two frames is the negation of its value
before them. -/
theorem debounce_two_frames (g : Game) (f1 f2 : Frame) (hwf : WFGame g)
    (hk1 : f1.keySpace = true) (hlt : f2.now - f1.now < 250 * millisecond) :
    ∃ g1 g2, Update g f1 = some g1 ∧ Update g1 f2 = some g2 ∧
      ¬(g1.paused ≠ g.paused ∧ g2.paused ≠ g1.paused) ∧
      (250 * millisecond < f1.now - g.lastUpdate →
        g1.paused = (!g.paused) ∧ g2.paused = (!g.paused)) := by
  obtain ⟨g1, e1, w1, p1, l1⟩ := Update_total g f1 hwf
  obtain ⟨g2, e2, _, p2, _⟩ := Update_total g1 f2 w1
  rw [togglePause_paused] at p1 p2
  rw [togglePause_paused, togglePause_lastUpdate] at l1
  have hsub := Sub_gt_250 f1.now g.lastUpdate
  have key : (f1.keySpace = true ∧ Sub f1.now g.lastUpdate > 250 * millisecond) →
      g2.paused = g1.paused := by
    intro hc
    simp only [if_pos hc] at l1
    have hl : g1.lastUpdate = f1.now := by
      rw [l1]; split_ifs with h1 h2
      · rfl
      · rfl
      · rfl
    rw [p2, hl, if_neg]
    intro hh
    have := (Sub_gt_250 f2.now f1.now).1 hh.2
    omega
  refine ⟨g1, g2, e1, e2, ?_, ?_⟩
  · rintro ⟨n1, n2⟩
    by_cases hc : f1.keySpace = true ∧ Sub f1.now g.lastUpdate > 250 * millisecond
    · exact n2 (key hc)
    · rw [if_neg hc] at p1
      exact n1 p1
  · intro hel
    have hc : f1.keySpace = true ∧ Sub f1.now g.lastUpdate > 250 * millisecond :=
      ⟨hk1, hsub.2 hel⟩
    have h1 : g1.paused = (!g.paused) := by rw [p1, if_pos hc]
    exact ⟨h1, by rw [key hc, h1]⟩

/-- An instance of the debounce: SPACE at 300 ms and 400 ms toggles once. -/
theorem debounce_two_frames_witness :
    ∃ g1 g2, Update (deadGame 0 true) (spaceFrame 300000000) = some g1 ∧
      Update g1 (spaceFrame 400000000) = some g2 ∧ g1.paused = false ∧ g2.paused = false := by
  obtain ⟨g1, g2, e1, e2, _, h⟩ := debounce_two_frames (deadGame 0 true)
    (spaceFrame 300000000) (spaceFrame 400000000) (wf_deadGame 0 true) rfl (by decide)
  exact ⟨g1, g2, e1, e2, (h (by decide)).1, (h (by decide)).2⟩

/-- C6: on grids of the fixed dimensions, a frame in which the simulator is
paused after the toggle step computes no generation: the scratch grid and the
timestamp are left as the toggle step left them, and with no mouse button
pressed the current grid is unchanged, whatever the clock reading; a frame in
which it is not paused ignores the mouse: buttons and cursor position have no
effect on the result. -/
theorem pause_gating (g : Game) (f : Frame) (hwf : WFGame g) :
    ((togglePause g f).paused = true →
      (∃ g1, Update g f = some g1 ∧ g1.nextGrid = g.nextGrid ∧ g1.paused = true ∧
        g1.lastUpdate = (togglePause g f).lastUpdate) ∧
      (f.mouseLeft = false → f.mouseRight = false →
        ∃ g1, Update g f = some g1 ∧ g1.grid = g.grid)) ∧
    ((togglePause g f).paused = false →
      ∀ (left right : Bool) (x y : Int),
        Update g { f with mouseLeft := left, mouseRight := right, cursorX := x, cursorY := y } =
          Update g { f with mouseLeft := false, mouseRight := false }) := by
  constructor
  · intro hp
    have hw := togglePause_wf hwf f
    constructor
    · obtain ⟨g1, e1, _, p1, l1⟩ := Update_total g f hwf
      have e2 := e1
      rw [Update_eq, if_pos hp] at e2
      unfold applyEdits at e2
      refine ⟨g1, e1, ?_, by rw [p1, hp], by rw [l1, if_pos hp]⟩
      cases h1 : (if f.mouseLeft = true then editCell (togglePause g f).grid f true
          else some (togglePause g f).grid) with
      | none => rw [h1] at e2; cases e2
      | some gr1 =>
        rw [h1, Option.some_bind] at e2
        cases h2 : (if f.mouseRight = true then editCell gr1 f false else some gr1) with
        | none => rw [h2] at e2; cases e2
        | some gr2 =>
          rw [h2, Option.some_bind] at e2
          cases e2
          exact togglePause_nextGrid g f
    · intro hl hr
      refine ⟨{ togglePause g f with grid := (togglePause g f).grid }, ?_, togglePause_grid g f⟩
      rw [Update_eq, if_pos hp]
      unfold applyEdits
      rw [hl, hr]
      rfl
  · intro hp left right x y
    have t1 : ∀ f1 : Frame, f1.keySpace = f.keySpace → f1.now = f.now →
        togglePause g f1 = togglePause g f := by
      intro f1 hk hn
      unfold togglePause
      rw [hk, hn]
    have a1 : ∀ f1 : Frame, f1.now = f.now →
        advance (togglePause g f) f1 = advance (togglePause g f) f := by
      intro f1 hn
      unfold advance
      rw [hn]
    rw [Update_eq, Update_eq,
      t1 { f with mouseLeft := left, mouseRight := right, cursorX := x, cursorY := y } rfl rfl,
      t1 { f with mouseLeft := false, mouseRight := false } rfl rfl,
      if_neg (by rw [hp]; decide), if_neg (by rw [hp]; decide),
      a1 { f with mouseLeft := left, mouseRight := right, cursorX := x, cursorY := y } rfl,
      a1 { f with mouseLeft := false, mouseRight := false } rfl]

/-- An instance of pause gating: a paused idle frame leaves the grid alone. -/
theorem pause_gating_witness :
    WFGame (deadGame 0 true) ∧
      ∃ g1, Update (deadGame 0 true) (idleFrame 500000000) = some g1 ∧
        g1.grid = (deadGame 0 true).grid :=
  ⟨wf_deadGame 0 true,
    ((pause_gating (deadGame 0 true) (idleFrame 500000000) (wf_deadGame 0 true)).1 rfl).2
      rfl rfl⟩


/-- C7: on grids of the fixed dimensions, in an unpaused state with no pause
signal and for clock readings `t1`, `t2` with `t2 - t1 < 100 ms` (in
particular for `t1 <= t2` less than 100 ms apart): if the frame
at `t1` computes a generation (at least 100 ms have elapsed since
`lastUpdate`), it sets `lastUpdate` to `t1` and the frame at `t2` returns the
state unchanged (current grid, scratch grid and `lastUpdate`); and every frame
less than 100 ms after `lastUpdate` returns the state unchanged. -/
theorem rate_gating (g : Game) (f1 f2 : Frame) (hwf : WFGame g) (hp : g.paused = false)
    (hk1 : f1.keySpace = false) (hk2 : f2.keySpace = false)
    (hlt : f2.now - f1.now < 100 * millisecond) :
    (100 * millisecond ≤ f1.now - g.lastUpdate →
      ∃ g1, Update g f1 = some g1 ∧ g1.lastUpdate = f1.now ∧ g1.nextGrid = g.grid ∧
        (∀ r c, 0 ≤ r → r < rows → 0 ≤ c → c < cols →
          index2 g1.grid r c = some (lifeRule g.grid r c)) ∧
        Update g1 f2 = some g1) ∧
    (∀ f : Frame, f.keySpace = false → f.now - g.lastUpdate < 100 * millisecond →
      Update g f = some g) := by
  have gate : ∀ (g0 : Game) (f : Frame), g0.paused = false → f.keySpace = false →
      f.now - g0.lastUpdate < 100 * millisecond → Update g0 f = some g0 := by
    intro g0 f h0 hk hel
    have ht : togglePause g0 f = g0 := togglePause_of_not (by rw [hk]; simp)
    rw [Update_eq, ht, if_neg (by rw [h0]; decide)]
    exact advance_gated g0 f ((Sub_lt_100 _ _).2 hel)
  constructor
  · intro hel
    have hdue : generationDue g f1 :=
      ⟨hp, by rw [hk1]; simp, fun h => by have := (Sub_lt_100 _ _).1 h; omega⟩
    obtain ⟨next, e1, w1, c1⟩ := Update_due g f1 hwf hdue
    refine ⟨_, e1, rfl, rfl, ?_, gate _ f2 rfl hk2 hlt⟩
    intro r c hr0 hr1 hc0 hc1
    show index2 next r c = _
    rw [wf_index2 w1 hr0 hr1 hc0 hc1, c1 r c hr0 hr1 hc0 hc1]
  · intro f hk hel
    exact gate g f hp hk hel

/-- An instance of rate gating: a generation at 100 ms, nothing at 150 ms. -/
theorem rate_gating_witness :
    ∃ g1, Update (deadGame 0 false) (idleFrame 100000000) = some g1 ∧
      g1.lastUpdate = 100000000 ∧ Update g1 (idleFrame 150000000) = some g1 := by
  obtain ⟨g1, e1, l1, _, _, e2⟩ := (rate_gating (deadGame 0 false) (idleFrame 100000000)
    (idleFrame 150000000) (wf_deadGame 0 false) rfl rfl rfl (by decide)).1
    (by decide)
  exact ⟨g1, e1, l1, e2⟩

/-! ## Editing while paused -/

/-- C8: on grids of the fixed dimensions, in a frame in which the simulator is
paused (line 53), with `row = y / 10` and `col = x / 10` by Go's truncating
division: `Update` does not panic; when `(row, col)` is in bounds, the cell is
alive afterwards if only the left button is pressed, dead afterwards if the
right button is pressed, and every other cell is unchanged; when `(row, col)`
is out of bounds the grid is unchanged. -/
theorem edit_while_paused (g : Game) (f : Frame) (hwf : WFGame g)
    (hp : (togglePause g f).paused = true) :
    ∃ g1, Update g f = some g1 ∧
      ((0 ≤ f.cursorY.tdiv cellSize ∧ f.cursorY.tdiv cellSize < rows ∧
          0 ≤ f.cursorX.tdiv cellSize ∧ f.cursorX.tdiv cellSize < cols) →
        (f.mouseLeft = true → f.mouseRight = false →
          index2 g1.grid (f.cursorY.tdiv cellSize) (f.cursorX.tdiv cellSize) = some true) ∧
        (f.mouseRight = true →
          index2 g1.grid (f.cursorY.tdiv cellSize) (f.cursorX.tdiv cellSize) = some false) ∧
        (∀ r c, ¬(r = f.cursorY.tdiv cellSize ∧ c = f.cursorX.tdiv cellSize) →
          index2 g1.grid r c = index2 g.grid r c)) ∧
      (¬(0 ≤ f.cursorY.tdiv cellSize ∧ f.cursorY.tdiv cellSize < rows ∧
          0 ≤ f.cursorX.tdiv cellSize ∧ f.cursorX.tdiv cellSize < cols) →
        g1.grid = g.grid) := by
  have hw := togglePause_wf hwf f
  have hg := togglePause_grid g f
  obtain ⟨grL, l1, l2, l3, l4⟩ := editCell_spec hw.1 f true
  obtain ⟨grLR, m1, _, m3, m4⟩ := editCell_spec l2 f false
  obtain ⟨grR, n1, _, n3, n4⟩ := editCell_spec hw.1 f false
  rw [Update_eq, if_pos hp]
  unfold applyEdits
  by_cases hl : f.mouseLeft = true <;> by_cases hr : f.mouseRight = true
  · refine ⟨{ togglePause g f with grid := grLR }, ?_, ?_, ?_⟩
    · rw [if_pos hl, l1, Option.some_bind, if_pos hr, m1, Option.some_bind]
    · intro hb
      refine ⟨fun _ h => (by rw [hr] at h; cases h), fun _ => ?_, fun r c hne => ?_⟩
      · show index2 grLR _ _ = _
        rw [m3 hb, if_pos ⟨rfl, rfl⟩]
      · show index2 grLR r c = _
        rw [m3 hb, if_neg hne, l3 hb, if_neg hne, hg]
    · intro hb
      show grLR = g.grid
      rw [m4 hb, l4 hb, hg]
  · refine ⟨{ togglePause g f with grid := grL }, ?_, ?_, ?_⟩
    · rw [if_pos hl, l1, Option.some_bind, if_neg hr, Option.some_bind]
    · intro hb
      refine ⟨fun _ _ => ?_, fun h => absurd h hr, fun r c hne => ?_⟩
      · show index2 grL _ _ = _
        rw [l3 hb, if_pos ⟨rfl, rfl⟩]
      · show index2 grL r c = _
        rw [l3 hb, if_neg hne, hg]
    · intro hb
      show grL = g.grid
      rw [l4 hb, hg]
  · refine ⟨{ togglePause g f with grid := grR }, ?_, ?_, ?_⟩
    · rw [if_neg hl, Option.some_bind, if_pos hr, n1, Option.some_bind]
    · intro hb
      refine ⟨fun h => absurd h hl, fun _ => ?_, fun r c hne => ?_⟩
      · show index2 grR _ _ = _
        rw [n3 hb, if_pos ⟨rfl, rfl⟩]
      · show index2 grR r c = _
        rw [n3 hb, if_neg hne, hg]
    · intro hb
      show grR = g.grid
      rw [n4 hb, hg]
  · refine ⟨{ togglePause g f with grid := (togglePause g f).grid }, ?_, ?_, ?_⟩
    · rw [if_neg hl, Option.some_bind, if_neg hr, Option.some_bind]
    · intro _
      refine ⟨fun h => absurd h hl, fun h => absurd h hr, fun r c _ => ?_⟩
      show index2 (togglePause g f).grid r c = _
      rw [hg]
    · intro _
      exact hg

/-- An instance of editing: a left click at `x = 25`, `y = -5` sets cell `(0, 2)`,
since `-5 / 10` is `0` in Go. -/
theorem edit_while_paused_witness :
    ∃ g1,
      Update (deadGame 0 true) ⟨false, true, false, 25, -5, 500000000⟩ = some g1 ∧
      index2 g1.grid 0 2 = some true := by
  obtain ⟨g1, e1, h1, _⟩ := edit_while_paused (deadGame 0 true)
    ⟨false, true, false, 25, -5, 500000000⟩ (wf_deadGame 0 true) rfl
  exact ⟨g1, e1, (h1 (by decide)).1 rfl rfl⟩


/-! ## The initial state -/

/-- C9 (counterexample): with every draw of the random source equal to 0 (all
cells alive) and a construction time of 63000000000000000000 ns after the zero
time, `NewGame` returns a timestamp different from the construction time, and
the idle frame 1 ms after construction computes a generation: it stamps
`lastUpdate` and the live cell `(0, 0)`, which has eight live neighbours,
dies. -/
theorem NewGame_counterexample :
    ∃ g g1, NewGame (fun _ => 0) = some g ∧ g.lastUpdate ≠ 63000000000000000000 ∧
      Update g (idleFrame (63000000000000000000 + 1000000)) = some g1 ∧
      g1.lastUpdate = 63000000000000000000 + 1000000 ∧
      index2 g.grid 0 0 = some true ∧ index2 g1.grid 0 0 = some false := by
  obtain ⟨g, e0, p0, l0, w0, c0, _⟩ := NewGame_spec (fun _ => 0)
  have hdue : generationDue g (idleFrame (63000000000000000000 + 1000000)) := by
    refine ⟨p0, ?_⟩
    rw [l0]; decide
  obtain ⟨next, e1, w1, c1⟩ := Update_due g _ w0 hdue
  have hz : (0 : Int) ≤ 0 ∧ (0 : Int) < rows ∧ (0 : Int) < cols := by decide
  have halive : ∀ r c, 0 ≤ r → r < rows → 0 ≤ c → c < cols →
      cellAt g.grid r c = (fun _ _ => true) r c := by
    intro r c hr0 hr1 hc0 hc1
    unfold cellAt
    rw [c0 r c hr0 hr1 hc0 hc1]; rfl
  refine ⟨g, _, e0, by rw [l0]; decide, e1, rfl, ?_, ?_⟩
  · rw [c0 0 0 hz.1 hz.2.1 hz.1 hz.2.2]; rfl
  · show index2 next 0 0 = some false
    rw [wf_index2 w1 hz.1 hz.2.1 hz.1 hz.2.2, c1 0 0 hz.1 hz.2.1 hz.1 hz.2.2]
    unfold lifeRule
    rw [ruleOf_congr halive hz.1 hz.2.1 hz.1 hz.2.2]
    decide

/-- C9 (amended): for every behaviour of the random source `NewGame` returns a
simulator with `paused = false`, current and scratch grids both of dimensions
rows x cols, and `lastUpdate` equal to the zero time; so a first frame without
the pause signal whose clock reading is at least 100 ms after the zero time
computes a generation, however soon after construction it runs. -/
theorem NewGame_initial_state (intn : Nat → Int) :
    ∃ g, NewGame intn = some g ∧ g.paused = false ∧ WF g.grid ∧ WF g.nextGrid ∧
      g.lastUpdate = 0 ∧
      ∀ f : Frame, f.keySpace = false → 100 * millisecond ≤ f.now →
        ∃ g1, Update g f = some g1 ∧ g1.lastUpdate = f.now ∧ g1.nextGrid = g.grid ∧
          ∀ r c, 0 ≤ r → r < rows → 0 ≤ c → c < cols →
            index2 g1.grid r c = some (lifeRule g.grid r c) := by
  obtain ⟨g, e0, p0, l0, w0, _, _⟩ := NewGame_spec intn
  refine ⟨g, e0, p0, w0.1, w0.2, l0, ?_⟩
  intro f hk hnow
  have hdue : generationDue g f := by
    refine ⟨p0, by rw [hk]; simp, ?_⟩
    intro h
    have := (Sub_lt_100 _ _).1 h
    rw [l0] at this
    omega
  obtain ⟨next, e1, w1, c1⟩ := Update_due g f w0 hdue
  refine ⟨_, e1, rfl, rfl, ?_⟩
  intro r c hr0 hr1 hc0 hc1
  show index2 next r c = _
  rw [wf_index2 w1 hr0 hr1 hc0 hc1, c1 r c hr0 hr1 hc0 hc1]

end GameLife

namespace PasswordGenerator

open GameLife

/-! ## The password generator -/

theorem availableChars_ne_nil (uppercase numbers symbols : Bool) :
    availableChars uppercase numbers symbols ≠ [] := by
  cases uppercase <;> cases numbers <;> cases symbols <;> decide

theorem mem_availableChars (uppercase numbers symbols : Bool) (ch : Char) :
    ch ∈ availableChars uppercase numbers symbols ↔
      ch ∈ lowercaseChars ∨ (uppercase = true ∧ ch ∈ uppercaseChars) ∨
        (numbers = true ∧ ch ∈ numberChars) ∨ (symbols = true ∧ ch ∈ symbolChars) := by
  cases uppercase <;> cases numbers <;> cases symbols <;>
    simp only [availableChars, List.nil_append, List.mem_append, if_true, if_false,
      Bool.false_eq_true, false_and, true_and, or_false, false_or] <;> tauto

theorem alphabets_disjoint :
    (∀ ch ∈ uppercaseChars, ch ∉ lowercaseChars ∧ ch ∉ numberChars ∧ ch ∉ symbolChars) ∧
    (∀ ch ∈ numberChars, ch ∉ lowercaseChars ∧ ch ∉ uppercaseChars ∧ ch ∉ symbolChars) ∧
    (∀ ch ∈ symbolChars, ch ∉ lowercaseChars ∧ ch ∉ uppercaseChars ∧ ch ∉ numberChars) := by
  decide

/-- One iteration of the loop of `generatePassword`. -/
theorem generatePassword_step (intn : Nat → Int → Int) (hc : IntnContract intn)
    (chars : List Char) (hne : chars ≠ []) {i : Int} (hi0 : 0 ≤ i) (password : List Char)
    (hi1 : i.toNat < password.length) :
    ∃ ch, ch ∈ chars ∧
      ((randIntn intn i.toNat (chars.length : Int)).bind fun k =>
        (index chars k).bind fun ch => assign password i ch) =
        some (password.set i.toNat ch) := by
  have hpos : (0 : Int) < (chars.length : Int) := by
    have := List.length_pos.2 hne
    omega
  obtain ⟨k0, k1⟩ := hc i.toNat (chars.length : Int) hpos
  have hk : (intn i.toNat (chars.length : Int)).toNat < chars.length := by omega
  refine ⟨chars.get ⟨_, hk⟩, List.get_mem _ _ _, ?_⟩
  unfold randIntn
  rw [if_neg (by omega), Option.some_bind, index_of_lt chars _ k0 hk, Option.some_bind,
    assign_of_lt password i _ hi0 hi1]


/-- C10: for every length >= 0, every choice of the flags and every random
source that meets the contract of `rand.Intn`, `generatePassword` does not
panic and returns exactly `length` bytes, each from the selected alphabet; the
alphabet is never empty; it consists of the lowercase letters, plus the
uppercase letters iff `uppercase`, plus the digits iff `numbers`, plus the
symbols iff `symbols`. -/
theorem generatePassword_spec (intn : Nat → Int → Int) (hc : IntnContract intn) (length : Int)
    (hlen : 0 ≤ length) (uppercase numbers symbols : Bool) :
    availableChars uppercase numbers symbols ≠ [] ∧
    (∀ ch, ch ∈ availableChars uppercase numbers symbols ↔
      ch ∈ lowercaseChars ∨ (uppercase = true ∧ ch ∈ uppercaseChars) ∨
        (numbers = true ∧ ch ∈ numberChars) ∨ (symbols = true ∧ ch ∈ symbolChars)) ∧
    (∀ ch ∈ uppercaseChars, ch ∈ availableChars uppercase numbers symbols ↔ uppercase = true) ∧
    (∀ ch ∈ numberChars, ch ∈ availableChars uppercase numbers symbols ↔ numbers = true) ∧
    (∀ ch ∈ symbolChars, ch ∈ availableChars uppercase numbers symbols ↔ symbols = true) ∧
    ∃ password, generatePassword intn length uppercase numbers symbols = some password ∧
      (password.length : Int) = length ∧
      ∀ ch ∈ password, ch ∈ availableChars uppercase numbers symbols := by
  have hne := availableChars_ne_nil uppercase numbers symbols
  have hmem := mem_availableChars uppercase numbers symbols
  obtain ⟨du, dn, ds⟩ := alphabets_disjoint
  refine ⟨hne, hmem, ?_, ?_, ?_, ?_⟩
  · intro ch hch
    have := du ch hch
    rw [hmem]; tauto
  · intro ch hch
    have := dn ch hch
    rw [hmem]; tauto
  · intro ch hch
    have := ds ch hch
    rw [hmem]; tauto
  · obtain ⟨pw, h1, h2, h3⟩ := forRange_inv
      (fun i password =>
        (randIntn intn i.toNat ((availableChars uppercase numbers symbols).length : Int)).bind
          fun k => (index (availableChars uppercase numbers symbols) k).bind fun ch =>
            assign password i ch)
      (fun i (pw : List Char) => pw.length = length.toNat ∧
        ∀ k, 0 ≤ k → k < i → ∃ ch, index pw k = some ch ∧
          ch ∈ availableChars uppercase numbers symbols)
      0 length hlen (List.replicate length.toNat (Char.ofNat 0))
      ⟨by simp, fun k hk0 hk1 => by omega⟩
      (by
        intro i pw hi0 hi1 hP
        obtain ⟨ch, m1, m2⟩ := generatePassword_step intn hc _ hne hi0 pw
          (by rw [hP.1]; omega)
        refine ⟨_, m2, by rw [List.length_set]; exact hP.1, ?_⟩
        intro k hk0 hk1
        by_cases e : k = i
        · rw [e]
          exact ⟨ch, index_set_self pw i ch hi0 (by rw [hP.1]; omega), m1⟩
        · rw [index_set_ne pw i k ch hi0 e]
          exact hP.2 k hk0 (by omega))
    refine ⟨pw, ?_, by rw [h2]; omega, ?_⟩
    · unfold generatePassword
      rw [if_neg (by omega)]
      exact h1
    · intro ch hch
      obtain ⟨n, hn, hget⟩ := List.getElem_of_mem hch
      obtain ⟨ch1, m1, m2⟩ := h3 (n : Int) (by omega) (by rw [h2] at hn; omega)
      rw [index_of_lt pw (n : Int) (by omega) (by simpa using hn)] at m1
      simp only [Int.toNat_ofNat, List.get_eq_getElem, Option.some.injEq] at m1
      rw [← hget, m1]; exact m2

/-- An instance of the generator: length 12 with the source that always draws 0. -/
theorem generatePassword_spec_witness :
    IntnContract (fun _ _ => 0) ∧
      ∃ password, generatePassword (fun _ _ => 0) 12 true false true = some password ∧
        (password.length : Int) = 12 := by
  have hc : IntnContract (fun _ _ => 0) := fun _ _ h => ⟨le_refl _, h⟩
  obtain ⟨_, _, _, _, _, pw, h1, h2, _⟩ := generatePassword_spec (fun _ _ => 0) hc 12
    (by decide) true false true
  exact ⟨hc, pw, h1, h2⟩

end PasswordGenerator
